import Mathlib

/-!
# easedba_net: per-interface network I/O collector

A shallow embedding of `plugins/inputs/easedba_net/status.go` and
`plugins/inputs/easedba_net/net.go`.

* Go maps (`map[string]T`) are association lists with at most one binding per key
  (`mapGet`, `mapSet`); a nil map and an empty map are both `[]`.
* `time.Time` and `time.Duration` are integers counting nanoseconds.
* The mutable world of one collection cycle (the package variable `statusMap`, the
  accumulator handed to `Gather`, the system clock) is passed explicitly.
* A run-time panic (integer division by zero) is an explicit outcome.
-/

namespace EasedbaNet

/-! ## Go maps as association lists -/

/-- Lookup `m[k]` with the comma-ok result as an `Option`. -/
def mapGet {β : Type} (k : String) : List (String × β) → Option β
  | [] => none
  | (k', v) :: m => if k' = k then some v else mapGet k m

/-- Assignment `m[k] = v`: replaces the binding of `k` when there is one, adds it otherwise. -/
def mapSet {β : Type} (k : String) (v : β) : List (String × β) → List (String × β)
  | [] => [(k, v)]
  | (k', v') :: m => if k' = k then (k, v) :: m else (k', v') :: mapSet k v m

/-- The keys bound in a map. -/
def mapKeys {β : Type} (m : List (String × β)) : List String :=
  m.map Prod.fst

/-! ## Values, time and machine integers -/

/-- The dynamic values this plugin stores in `map[string]interface{}`: the strings built by
`fmt.Sprintf` and the `int64` numbers of rates, deltas and protocol statistics. -/
inductive Value where
  | str (s : String)
  | int (i : Int)
deriving DecidableEq, Repr

/-- A field mapping, `map[string]interface{}`. -/
abbrev Fields := List (String × Value)

/-- An instant `time.Time`, in nanoseconds on one time line. -/
abbrev Time := Int

/-- A `time.Duration`: a signed 64-bit count of nanoseconds. -/
abbrev Duration := Int

/-- The zero value of `time.Time`. -/
def zeroTime : Time := 0

/-- The smallest `int64`, also `minDuration`. -/
def minInt64 : Int := -9223372036854775808

/-- The largest `int64`, also `maxDuration`. -/
def maxInt64 : Int := 9223372036854775807

/-- The constant `time.Second` as an `int64`. -/
def Second : Int := 1000000000

/-- Two's complement wrap of an integer into the `int64` range. -/
def wrapInt64 (x : Int) : Int :=
  (x + 9223372036854775808) % 18446744073709551616 - 9223372036854775808

/-- The method `t.Sub(u)` of `time.Time`: the duration `t - u`, saturated at the largest and
smallest duration when the difference does not fit. -/
def Time.Sub (t u : Time) : Duration :=
  if t - u > maxInt64 then maxInt64
  else if t - u < minInt64 then minInt64
  else t - u

/-- The method `d.Nanoseconds()` of `time.Duration`. -/
def Duration.Nanoseconds (d : Duration) : Int := d

/-- Go's `a / b` on `int64`: a run-time panic (`none`) when `b` is zero, otherwise the quotient
truncated toward zero, wrapped to 64 bits. -/
def int64Div (a b : Int) : Option Int :=
  if b = 0 then none else some (wrapInt64 (Int.tdiv a b))

/-- The system clock: the readings the coming calls of `time.Now()` return, in order. -/
abbrev Clock := Nat → Time

/-- One call of `time.Now()`: the reading, and the clock left for later calls. -/
def timeNow (clock : Clock) : Time × Clock :=
  (clock 0, fun n => clock (n + 1))

/-- The verb `%d` of `fmt.Sprintf` on an unsigned integer: its decimal digits. -/
def sprintfD (n : Nat) : String := Nat.repr n

/-- Modelled from the spec: part of the numeric reading `Value.toInt?`, which belongs to the
package `easedbautil`, outside the two files embedded here. Reads a run of decimal digits, most
significant first, onto the number read so far. -/
def parseDigits : List Char → Nat → Option Nat
  | [], acc => some acc
  | c :: cs, acc => if c.isDigit then parseDigits cs (acc * 10 + (c.toNat - 48)) else none

/-- Modelled from the spec: part of the numeric reading `Value.toInt?`, which belongs to the
package `easedbautil`, outside the two files embedded here. Reads a decimal integer: an optional
minus sign and at least one digit. -/
def parseInt (s : String) : Option Int :=
  match s.data with
  | [] => none
  | '-' :: [] => none
  | '-' :: cs => (parseDigits cs 0).map (fun n => -(n : Int))
  | cs => (parseDigits cs 0).map (fun n => (n : Int))

/-- Modelled from the spec: the numeric reading of a stored snapshot value, which is done by
`GetPropertyDelta` in the package `easedbautil`, outside the two files embedded here. The spec
calls the values of a snapshot integer-valued counters; the collector stores them as decimal
strings. -/
def Value.toInt? : Value → Option Int
  | .str s => parseInt s
  | .int i => some i

/-! ## The status record (status.go) -/

/-- Modelled from the spec: the record type `easedbautil.BaseStatus` embedded by `Status`; its
declaration is in the package `easedbautil`, outside the two files embedded here. It holds the
previous and current snapshot with their timestamps, as the spec lists them and as `Fill` and
`Gather` use them; its `Locker` has no content in a sequential run. -/
structure BaseStatus where
  Name : String
  LastStatus : Fields
  CurrStatus : Fields
  LastTime : Time
  CurrTime : Time
deriving DecidableEq, Repr

/-- The type `Status` of status.go, which embeds `BaseStatus`. -/
structure Status extends BaseStatus
deriving DecidableEq, Repr

/-- Modelled from the spec: the constructor `easedbautil.NewBaseStatus`, which is in the
package `easedbautil`, outside the two files embedded here. The spec has it create an empty
record: no snapshot, zero timestamps. -/
def NewBaseStatus (device : String) : BaseStatus :=
  { Name := device, LastStatus := [], CurrStatus := [], LastTime := zeroTime,
    CurrTime := zeroTime }

/-- The constructor `New` of status.go. -/
def New (device : String) : Status :=
  { toBaseStatus := NewBaseStatus device }

/-- The method `Status.Fill` of status.go. It returns the updated record, the clock after the
call of `time.Now()`, and the error result, which is always nil (`none`). Taking and releasing
`g.Locker` has no effect in a sequential run. -/
def Status.Fill (g : Status) (clock : Clock) (netFields : Fields) :
    Status × Clock × Option String :=
  let g1 : Status := { g with LastStatus := g.CurrStatus }
  let g2 : Status := { g1 with LastTime := g1.CurrTime }
  let t := timeNow clock
  let g3 : Status := { g2 with CurrTime := t.1 }
  let g4 : Status := { g3 with CurrStatus := netFields }
  (g4, t.2, none)

/-- Modelled from the spec: the method `GetPropertyDelta` of `easedbautil.BaseStatus`, which is
in the package `easedbautil`, outside the two files embedded here. Its result is an `int64`
and an error, as its use in `Gather` shows. Without a previous value of the property there is no
delta (an error the caller skips); otherwise the raw delta is the current value minus the
previous value. -/
def Status.GetPropertyDelta (g : Status) (property : String) : Except String Int :=
  match (mapGet property g.LastStatus).bind Value.toInt?,
        (mapGet property g.CurrStatus).bind Value.toInt? with
  | some last, some curr => .ok (curr - last)
  | _, _ => .error ("no delta available for " ++ property)

/-! ## The collector (net.go) -/

/-- One entry of the raw per-interface counter list (`net.IOCountersStat` of gopsutil), with the
fields `Gather` reads. The counters are unsigned 64-bit numbers. -/
structure IOCountersStat where
  Name : String
  BytesSent : Nat
  BytesRecv : Nat
  PacketsSent : Nat
  PacketsRecv : Nat
  Errin : Nat
  Errout : Nat
  Dropin : Nat
  Dropout : Nat
deriving DecidableEq, Repr

/-- One protocol group (`net.ProtoCountersStat` of gopsutil): a protocol name and its named
`int64` statistics. -/
structure ProtoCountersStat where
  Protocol : String
  Stats : List (String × Int)
deriving DecidableEq, Repr

/-- One system interface (`net.Interface` of Go's library), with the fields `Gather` reads. -/
structure Interface where
  Name : String
  Flags : Nat
deriving DecidableEq, Repr

/-- The flag `net.FlagUp`. -/
def FlagUp : Nat := 1

/-- The flag `net.FlagLoopback`. -/
def FlagLoopback : Nat := 4

/-- The collaborator `system.PS`: what its two calls return in this cycle. `NetProto` returns
both a list and an error, and `Gather` drops the error. -/
structure PS where
  NetIO : Except String (List IOCountersStat)
  NetProto : List ProtoCountersStat × Option String

/-- The plugin `NetIOStats`. A nil `filter` is `none`; a compiled filter is its `Match`. -/
structure NetIOStats where
  filter : Option (String → Bool)
  ps : PS
  skipChecks : Bool
  IgnoreProtocolStats : Bool
  Interfaces : List String

/-- Library calls `Gather` makes outside the plugin: `filter.Compile`, `net.Interfaces()` and
`strings.ToLower`. They are parameters of the embedding. -/
structure Env where
  Compile : List String → Except String (String → Bool)
  Interfaces : Except String (List Interface)
  ToLower : String → String

/-- How a metric was handed to the accumulator: `AddCounter` or `AddFields`. -/
inductive Kind where
  | counter
  | fields
deriving DecidableEq, Repr

/-- One call of the accumulator: measurement name, field mapping and tag mapping. -/
structure Metric where
  kind : Kind
  measurement : String
  fields : Fields
  tags : List (String × String)
deriving DecidableEq, Repr

/-- The mutable state around a collection cycle: the package variable `statusMap`, the calls the
accumulator has received so far (oldest first), and the system clock. -/
structure World where
  statusMap : List (String × Status)
  acc : List Metric
  clock : Clock

/-- How a call of `Gather` ends: it returns an error value (nil is `none`), or it panics on an
integer division by zero. -/
inductive Outcome where
  | returned (err : Option String)
  | panicked
deriving DecidableEq, Repr

/-- What a call of `Gather` leaves: the receiver (its filter may now be compiled), the world,
and the outcome. -/
structure GatherResult where
  stats : NetIOStats
  world : World
  outcome : Outcome

/-- The visibility test at the head of the loop body of `Gather`: `true` when the body hits
one of its `continue` statements for this entry. -/
def skips (s : NetIOStats) (f : String → Bool) (interfacesByName : List (String × Interface))
    (io : IOCountersStat) : Bool :=
  if s.Interfaces.length ≠ 0 then
    !(f io.Name)
  else if !s.skipChecks then
    match mapGet io.Name interfacesByName with
    | none => true
    | some iface =>
      if iface.Flags &&& FlagLoopback = FlagLoopback then true
      else if iface.Flags &&& FlagUp = 0 then true
      else false
  else false

/-- The map literal `fields` of the loop body: the eight counters as decimal strings. -/
def counterFields (io : IOCountersStat) : Fields :=
  [("bytes_sent", .str (sprintfD io.BytesSent)),
   ("bytes_recv", .str (sprintfD io.BytesRecv)),
   ("packets_sent", .str (sprintfD io.PacketsSent)),
   ("packets_recv", .str (sprintfD io.PacketsRecv)),
   ("err_in", .str (sprintfD io.Errin)),
   ("err_out", .str (sprintfD io.Errout)),
   ("drop_in", .str (sprintfD io.Dropin)),
   ("drop_out", .str (sprintfD io.Dropout))]

/-- The divisor of the rate: `s.CurrTime.Sub(s.LastTime).Nanoseconds() / int64(time.Second)`.
The division is by a non-zero constant and truncates toward zero. -/
def elapsedSeconds (s : Status) : Int :=
  Int.tdiv (Duration.Nanoseconds (Time.Sub s.CurrTime s.LastTime)) Second

/-- The first `case` of the `switch k`: the four counting fields. -/
abbrev countingField (k : String) : Prop :=
  k = "err_in" ∨ k = "err_out" ∨ k = "drop_in" ∨ k = "drop_out"

/-- The second `case` of the `switch k`: the four throughput fields. -/
abbrev throughputField (k : String) : Prop :=
  k = "bytes_sent" ∨ k = "bytes_recv" ∨ k = "packets_sent" ∨ k = "packets_recv"

/-- The loop `for k := range fields` of the loop body, over the keys still to visit. It gives
the mapping `adaptedFields`, or `none` when a rate division panics. -/
def adaptFields (s : Status) : List String → Fields → Option Fields
  | [], adaptedFields => some adaptedFields
  | k :: ks, adaptedFields =>
    match s.GetPropertyDelta k with
    | .error _ => adaptFields s ks adaptedFields
    | .ok v =>
      if countingField k then
        adaptFields s ks (mapSet k (.int v) adaptedFields)
      else if throughputField k then
        match int64Div v (elapsedSeconds s) with
        | none => none
        | some q => adaptFields s ks (mapSet k (.int q) adaptedFields)
      else adaptFields s ks adaptedFields

/-- The record the loop body works on: the one `statusMap` holds for the name, or a new one. -/
def statusOf (statusMap : List (String × Status)) (name : String) : Status :=
  match mapGet name statusMap with
  | some s => s
  | none => New name

/-- The loop body of `Gather` for an entry that is not skipped: fetch or create the record,
`Fill` it, compute `adaptedFields`, hand them to `AddCounter`. The flag is `true` when the body
panics; the record is filled by then and nothing is handed to the accumulator. -/
def gatherOne (w : World) (io : IOCountersStat) : World × Bool :=
  let tags := [("interface", io.Name)]
  let fields := counterFields io
  let r := (statusOf w.statusMap io.Name).Fill w.clock fields
  let w1 : World := { w with statusMap := mapSet io.Name r.1 w.statusMap, clock := r.2.1 }
  match adaptFields r.1 (mapKeys fields) [] with
  | none => (w1, true)
  | some adaptedFields =>
    ({ w1 with acc := w1.acc ++ [⟨.counter, "net", adaptedFields, tags⟩] }, false)

/-- The loop `for _, io := range netio` of `Gather`, with the filter `f` that `s.filter` holds
by then; of the receiver the loop reads `Interfaces` and `skipChecks` besides. The flag is
`true` when an iteration panicked, which ends the loop. -/
def gatherLoop (s : NetIOStats) (f : String → Bool)
    (interfacesByName : List (String × Interface)) : World → List IOCountersStat → World × Bool
  | w, [] => (w, false)
  | w, io :: rest =>
    if skips s f interfacesByName io then gatherLoop s f interfacesByName w rest
    else
      match gatherOne w io with
      | (w1, true) => (w1, true)
      | (w1, false) => gatherLoop s f interfacesByName w1 rest

/-- The map `interfacesByName` built from the system interface list. -/
def interfacesByName (interfaces : List Interface) : List (String × Interface) :=
  interfaces.foldl (fun m iface => mapSet iface.Name iface m) []

/-- The flattened protocol statistics: one field `lower(protocol)_lower(stat)` per statistic. -/
def protoFields (toLower : String → String) (netprotos : List ProtoCountersStat) : Fields :=
  netprotos.foldl
    (fun fields proto =>
      proto.Stats.foldl
        (fun fields sv => mapSet (toLower proto.Protocol ++ "_" ++ toLower sv.1) (.int sv.2) fields)
        fields)
    []

/-- The filter `Gather` works with: the cached one, or the one compiled from `Interfaces`. -/
def resolveFilter (env : Env) (s : NetIOStats) : Except String (String → Bool) :=
  match s.filter with
  | some f => .ok f
  | none => env.Compile s.Interfaces

/-- The method `NetIOStats.Gather` of net.go. -/
def NetIOStats.Gather (env : Env) (s : NetIOStats) (w : World) : GatherResult :=
  match PS.NetIO s.ps with
  | .error err => ⟨s, w, .returned (some ("error getting net io info: " ++ err))⟩
  | .ok netio =>
    match resolveFilter env s with
    | .error err => ⟨s, w, .returned (some ("error compiling filter: " ++ err))⟩
    | .ok f =>
      let s1 : NetIOStats := { s with filter := some f }
      match env.Interfaces with
      | .error err =>
        ⟨s1, w, .returned (some ("error getting list of interfaces: " ++ err))⟩
      | .ok interfaces =>
        match gatherLoop s f (interfacesByName interfaces) w netio with
        | (w1, true) => ⟨s1, w1, .panicked⟩
        | (w1, false) =>
          if !s1.IgnoreProtocolStats then
            let netprotos := s1.ps.NetProto.1
            let fields := protoFields env.ToLower netprotos
            let tags := [("interface", "all")]
            ⟨s1, { w1 with acc := w1.acc ++ [⟨.fields, "net", fields, tags⟩] }, .returned none⟩
          else ⟨s1, w1, .returned none⟩

/-! ## Auxiliary definitions used in the statements and proofs -/

/-- The record the loop body has filled for an entry. -/
def filledStatus (w : World) (io : IOCountersStat) : Status :=
  ((statusOf w.statusMap io.Name).Fill w.clock (counterFields io)).1

/-- The metric the loop body hands to `AddCounter`. -/
def counterMetric (io : IOCountersStat) (adaptedFields : Fields) : Metric :=
  ⟨.counter, "net", adaptedFields, [("interface", io.Name)]⟩

/-- The metric `Gather` hands to `AddFields` for the protocol statistics. -/
def protoMetric (env : Env) (s : NetIOStats) : Metric :=
  ⟨.fields, "net", protoFields env.ToLower s.ps.NetProto.1, [("interface", "all")]⟩

/-- The field name of a protocol statistic. -/
def protoKey (toLower : String → String) (protocol stat : String) : String :=
  toLower protocol ++ "_" ++ toLower stat

/-! ## Concrete runs used to instantiate the theorems -/

/-- ASCII lower-casing, which is what `strings.ToLower` does on ASCII text. -/
def asciiLower (s : String) : String := ⟨s.data.map Char.toLower⟩

/-- A host with an up interface, the loopback interface and a down interface. -/
def demoEnv : Env :=
  { Compile := fun names => .ok (fun name => decide (name ∈ names)),
    Interfaces := .ok [⟨"eth0", 1⟩, ⟨"lo", 5⟩, ⟨"eth1", 0⟩],
    ToLower := asciiLower }

/-- The first reading of `eth0`. -/
def demoIO1 : IOCountersStat :=
  { Name := "eth0", BytesSent := 1000, BytesRecv := 500, PacketsSent := 10, PacketsRecv := 8,
    Errin := 5, Errout := 0, Dropin := 1, Dropout := 0 }

/-- The second reading of `eth0`. -/
def demoIO2 : IOCountersStat :=
  { Name := "eth0", BytesSent := 3000, BytesRecv := 900, PacketsSent := 17, PacketsRecv := 12,
    Errin := 9, Errout := 0, Dropin := 1, Dropout := 2 }

/-- The plugin as the host creates it, reading the given raw counter list. -/
def demoStats (netio : List IOCountersStat) : NetIOStats :=
  { filter := none,
    ps := { NetIO := .ok netio, NetProto := ([⟨"Tcp", [("ActiveOpens", 7)]⟩], none) },
    skipChecks := false, IgnoreProtocolStats := false, Interfaces := [] }

/-- The filter `demoEnv` compiles for an empty allow-list. -/
def demoFilter : String → Bool := fun name => decide (name ∈ ([] : List String))

/-- An empty store, an empty accumulator, and a clock read at 1 s, 3 s, 5 s and so on. -/
def demoWorld0 : World :=
  { statusMap := [], acc := [], clock := fun n => 1000000000 * (2 * (n : Int) + 1) }

/-- The same with a clock read every half second. -/
def demoWorldFast : World :=
  { statusMap := [], acc := [], clock := fun n => 500000000 * ((n : Int) + 1) }

/-- The world after a first cycle that read `demoIO1`. -/
def demoWorld1 : World := ((demoStats [demoIO1]).Gather demoEnv demoWorld0).world

/-- The world after a first cycle that read `demoIO1`, on the fast clock. -/
def demoWorldFast1 : World := ((demoStats [demoIO1]).Gather demoEnv demoWorldFast).world

/-- The record of `eth0` after the first cycle. -/
def demoRecord (t : Time) : Status :=
  { Name := "eth0", LastStatus := [], CurrStatus := counterFields demoIO1, LastTime := 0,
    CurrTime := t }

/-- A reading of the loopback interface. -/
def demoLo : IOCountersStat :=
  { Name := "lo", BytesSent := 70, BytesRecv := 70, PacketsSent := 2, PacketsRecv := 2,
    Errin := 0, Errout := 0, Dropin := 0, Dropout := 0 }

/-- A reading of the down interface. -/
def demoEth1 : IOCountersStat :=
  { Name := "eth1", BytesSent := 0, BytesRecv := 0, PacketsSent := 0, PacketsRecv := 0,
    Errin := 0, Errout := 0, Dropin := 0, Dropout := 0 }

/-- The plugin with `skipChecks` set and no allow-list. -/
def demoStatsSkipChecks (netio : List IOCountersStat) : NetIOStats :=
  { demoStats netio with skipChecks := true }

/-- The plugin with the allow-list `["eth1"]`. -/
def demoStatsAllow (netio : List IOCountersStat) : NetIOStats :=
  { demoStats netio with Interfaces := ["eth1"] }

/-- The world after a first cycle with the allow-list `["eth1"]` that read `demoEth1`, on the
fast clock. -/
def demoWorldAllowFast1 : World :=
  ((demoStatsAllow [demoEth1]).Gather demoEnv demoWorldFast).world

/-- The filter `demoEnv` compiles for the allow-list `["eth1"]`. -/
def demoFilterAllow : String → Bool := fun name => decide (name ∈ ["eth1"])

/-- The plugin whose retrieval of the protocol statistics fails, with nothing returned. -/
def demoStatsProtoFails (netio : List IOCountersStat) : NetIOStats :=
  { demoStats netio with
    ps := { NetIO := .ok netio, NetProto := ([], some "not implemented") } }

/-! ## Decimal rendering and reading -/

theorem digitChar_isDigit (m : Nat) (h : m < 10) :
    (Nat.digitChar m).isDigit = true ∧ (Nat.digitChar m).toNat - 48 = m := by
  interval_cases m <;> decide

theorem parseDigits_toDigitsCore (fuel : Nat) :
    ∀ (n : Nat) (ds : List Char), n < fuel →
      ∃ front : List Char, front ≠ [] ∧ Nat.toDigitsCore 10 fuel n ds = front ++ ds ∧
        (∀ c ∈ front, c.isDigit = true) ∧
        ∀ rest : List Char, parseDigits (front ++ rest) 0 = parseDigits rest n := by
  induction fuel with
  | zero => intro n ds h; omega
  | succ fuel ih =>
    intro n ds h
    have hd := digitChar_isDigit (n % 10) (Nat.mod_lt n (by decide))
    unfold Nat.toDigitsCore
    by_cases h0 : n / 10 = 0
    · refine ⟨[Nat.digitChar (n % 10)], by simp, by simp [h0], by simpa using hd.1, ?_⟩
      intro rest
      have hn : n % 10 = n := by omega
      simp only [List.singleton_append, parseDigits, hd.1, hd.2, if_true]
      simp [hn]
    · obtain ⟨front, hne, heq, hdig, hparse⟩ :=
        ih (n / 10) (Nat.digitChar (n % 10) :: ds) (by omega)
      refine ⟨front ++ [Nat.digitChar (n % 10)], by simp, by simp [h0, heq], ?_, ?_⟩
      · intro c hc
        rcases List.mem_append.mp hc with hc | hc
        · exact hdig c hc
        · simpa [List.mem_singleton.mp hc] using hd.1
      · intro rest
        have hn : n / 10 * 10 + n % 10 = n := by omega
        simp only [List.append_assoc, List.singleton_append, hparse, parseDigits, hd.1, hd.2,
          if_true, hn]

/-- Reading back the decimal rendering of a counter gives the counter. -/
theorem parseInt_sprintfD (n : Nat) : parseInt (sprintfD n) = some (n : Int) := by
  obtain ⟨front, hne, heq, hdig, hparse⟩ := parseDigits_toDigitsCore (n + 1) n [] (by omega)
  have hdata : (sprintfD n).data = front := by
    simp [sprintfD, Nat.repr, Nat.toDigits, List.asString, heq]
  have hp : parseDigits front 0 = some n := by
    have := hparse []
    simpa [parseDigits] using this
  unfold parseInt
  rw [hdata]
  cases front with
  | nil => exact absurd rfl hne
  | cons c cs =>
    have hc : c ≠ '-' := by
      intro hc
      have := hdig c (by simp)
      rw [hc] at this
      exact absurd this (by decide)
    split
    · simp_all
    · simp_all
    · simp_all
    · simp [hp]

/-- Reading a stored counter string gives the counter. -/
theorem toInt_str_sprintfD (n : Nat) : Value.toInt? (.str (sprintfD n)) = some (n : Int) := by
  simp [Value.toInt?, parseInt_sprintfD]

/-! ## Lemmas on maps -/

theorem mapGet_mapSet_self {β : Type} (k : String) (v : β) (m : List (String × β)) :
    mapGet k (mapSet k v m) = some v := by
  induction m with
  | nil => simp [mapSet, mapGet]
  | cons kv m ih =>
    obtain ⟨k', v'⟩ := kv
    by_cases h : k' = k
    · simp [mapSet, mapGet, h]
    · simp [mapSet, mapGet, h, ih]

theorem mapGet_mapSet_ne {β : Type} (k k' : String) (v : β) (m : List (String × β))
    (h : k' ≠ k) : mapGet k' (mapSet k v m) = mapGet k' m := by
  induction m with
  | nil => simp [mapSet, mapGet, Ne.symm h]
  | cons kv m ih =>
    obtain ⟨k1, v1⟩ := kv
    by_cases h1 : k1 = k
    · subst h1
      simp [mapSet, mapGet, Ne.symm h]
    · by_cases h2 : k1 = k'
      · subst h2
        simp [mapSet, mapGet, h1]
      · simp [mapSet, mapGet, h1, h2, ih]

theorem mem_mapKeys_mapSet {β : Type} (k x : String) (v : β) (m : List (String × β)) :
    x ∈ mapKeys (mapSet k v m) ↔ x = k ∨ x ∈ mapKeys m := by
  induction m with
  | nil => simp [mapSet, mapKeys]
  | cons kv m ih =>
    obtain ⟨k1, v1⟩ := kv
    by_cases h1 : k1 = k
    · subst h1
      simp [mapSet, mapKeys]
    · have ih' : x ∈ List.map Prod.fst (mapSet k v m) ↔ x = k ∨ x ∈ List.map Prod.fst m := ih
      simp only [mapSet, h1, if_false, mapKeys, List.map_cons, List.mem_cons, ih']
      tauto

theorem mapGet_none_iff {β : Type} (k : String) (m : List (String × β)) :
    mapGet k m = none ↔ k ∉ mapKeys m := by
  induction m with
  | nil => simp [mapGet, mapKeys]
  | cons kv m ih =>
    obtain ⟨k1, v1⟩ := kv
    by_cases h1 : k1 = k
    · simp [mapGet, mapKeys, h1]
    · have ih' : mapGet k m = none ↔ k ∉ List.map Prod.fst m := ih
      simp only [mapGet, h1, if_false, mapKeys, List.map_cons, List.mem_cons, ih']
      constructor
      · intro h hk
        rcases hk with hk | hk
        · exact h1 hk.symm
        · exact h hk
      · intro h hk
        exact h (Or.inr hk)

/-! ## Lemmas on the field loop -/

theorem throughput_not_counting (k : String) (h : throughputField k) : ¬ countingField k := by
  rcases h with rfl | rfl | rfl | rfl <;> decide

theorem int64Div_eq_none (a b : Int) : int64Div a b = none ↔ b = 0 := by
  unfold int64Div
  by_cases h : b = 0 <;> simp [h]

theorem int64Div_of_ne (a b : Int) (h : b ≠ 0) :
    int64Div a b = some (wrapInt64 (Int.tdiv a b)) := by
  simp [int64Div, h]

/-- A key without a delta leaves `adaptedFields` alone; with no delta at all the loop returns
the mapping it started from. -/
theorem adaptFields_no_delta (s : Status) (ks : List String) (a : Fields)
    (h : ∀ k ∈ ks, ∃ e, s.GetPropertyDelta k = .error e) : adaptFields s ks a = some a := by
  induction ks generalizing a with
  | nil => simp [adaptFields]
  | cons k ks ih =>
    obtain ⟨e, he⟩ := h k (by simp)
    simp only [adaptFields, he]
    exact ih a (fun k' hk' => h k' (List.mem_cons_of_mem _ hk'))

/-- The field loop panics exactly when the whole seconds elapsed are zero and some throughput
field has a delta. -/
theorem adaptFields_eq_none_iff (s : Status) (ks : List String) (a : Fields) :
    adaptFields s ks a = none ↔
      elapsedSeconds s = 0 ∧ ∃ k ∈ ks, throughputField k ∧ ∃ v, s.GetPropertyDelta k = .ok v := by
  induction ks generalizing a with
  | nil => simp [adaptFields]
  | cons k ks ih =>
    unfold adaptFields
    cases hd : s.GetPropertyDelta k with
    | error e =>
      simp only [ih, List.mem_cons, exists_eq_or_imp, hd]
      simp
    | ok v =>
      simp only
      by_cases hc : countingField k
      · have hnt : ¬ throughputField k := fun ht => throughput_not_counting k ht hc
        simp only [hc, if_true, ih, List.mem_cons, exists_eq_or_imp, hnt, false_and, false_or]
      · by_cases ht : throughputField k
        · simp only [hc, if_false, ht, if_true]
          by_cases hz : elapsedSeconds s = 0
          · have : int64Div v (elapsedSeconds s) = none := (int64Div_eq_none _ _).2 hz
            simp only [this, true_iff]
            exact ⟨hz, k, by simp, ht, v, hd⟩
          · rw [int64Div_of_ne _ _ hz]
            simp only [ih, hz, false_and]
        · simp only [hc, if_false, ht, ih, List.mem_cons, exists_eq_or_imp, false_and, false_or]

/-- The value the field loop leaves under a counting key that has a delta. -/
theorem adaptFields_get (s : Status) (k : String) (x : Value) (ks : List String) :
    ∀ (a r : Fields),
      (∀ v, s.GetPropertyDelta k = .ok v →
        (countingField k → x = .int v) ∧
        (throughputField k → x = .int (wrapInt64 (Int.tdiv v (elapsedSeconds s))))) →
      (∃ v, s.GetPropertyDelta k = .ok v) →
      (countingField k ∨ throughputField k) →
      adaptFields s ks a = some r → (k ∈ ks ∨ mapGet k a = some x) → mapGet k r = some x := by
  induction ks with
  | nil =>
    intro a r _ _ _ hr hk
    simp only [adaptFields, Option.some.injEq] at hr
    subst hr
    simpa using hk
  | cons k1 ks ih =>
    intro a r hx hv hcls hr hk
    unfold adaptFields at hr
    by_cases hk1 : k1 = k
    · subst hk1
      obtain ⟨v, hv'⟩ := hv
      obtain ⟨hxc, hxt⟩ := hx v hv'
      simp only [hv'] at hr
      by_cases hc : countingField k1
      · simp only [hc, if_true] at hr
        refine ih _ r hx ⟨v, hv'⟩ hcls hr (Or.inr ?_)
        rw [mapGet_mapSet_self, hxc hc]
      · have ht : throughputField k1 := hcls.resolve_left hc
        simp only [hc, if_false, ht, if_true] at hr
        by_cases hz : elapsedSeconds s = 0
        · rw [(int64Div_eq_none _ _).2 hz] at hr
          simp at hr
        · rw [int64Div_of_ne _ _ hz] at hr
          simp only at hr
          refine ih _ r hx ⟨v, hv'⟩ hcls hr (Or.inr ?_)
          rw [mapGet_mapSet_self, hxt ht]
    · have hk' : k ∈ ks ∨ mapGet k a = some x := by
        rcases hk with hk | hk
        · rcases List.mem_cons.mp hk with hk | hk
          · exact absurd hk.symm hk1
          · exact Or.inl hk
        · exact Or.inr hk
      have hne : k ≠ k1 := fun h => hk1 h.symm
      cases hd : s.GetPropertyDelta k1 with
      | error e =>
        simp only [hd] at hr
        exact ih a r hx hv hcls hr hk'
      | ok v1 =>
        simp only [hd] at hr
        by_cases hc : countingField k1
        · simp only [hc, if_true] at hr
          refine ih _ r hx hv hcls hr ?_
          rcases hk' with hk' | hk'
          · exact Or.inl hk'
          · exact Or.inr (by rw [mapGet_mapSet_ne _ _ _ _ hne]; exact hk')
        · by_cases ht : throughputField k1
          · simp only [hc, if_false, ht, if_true] at hr
            by_cases hz : elapsedSeconds s = 0
            · rw [(int64Div_eq_none _ _).2 hz] at hr
              simp at hr
            · rw [int64Div_of_ne _ _ hz] at hr
              simp only at hr
              refine ih _ r hx hv hcls hr ?_
              rcases hk' with hk' | hk'
              · exact Or.inl hk'
              · exact Or.inr (by rw [mapGet_mapSet_ne _ _ _ _ hne]; exact hk')
          · simp only [hc, if_false, ht] at hr
            exact ih a r hx hv hcls hr hk'

/-! ## Lemmas on the loop body and the loop -/

theorem gatherOne_of_none (w : World) (io : IOCountersStat)
    (h : adaptFields (filledStatus w io) (mapKeys (counterFields io)) [] = none) :
    (gatherOne w io).2 = true ∧ (gatherOne w io).1.acc = w.acc := by
  unfold filledStatus at h
  simp [gatherOne, h]

theorem gatherOne_of_some (w : World) (io : IOCountersStat) (a : Fields)
    (h : adaptFields (filledStatus w io) (mapKeys (counterFields io)) [] = some a) :
    (gatherOne w io).2 = false ∧ (gatherOne w io).1.acc = w.acc ++ [counterMetric io a] := by
  unfold filledStatus at h
  simp [gatherOne, h, counterMetric]

theorem gatherOne_statusMap (w : World) (io : IOCountersStat) :
    (gatherOne w io).1.statusMap = mapSet io.Name (filledStatus w io) w.statusMap := by
  unfold gatherOne filledStatus
  simp only
  split <;> rfl

/-- The loop body adds at most one metric, a counter metric tagged with the entry's name, and
exactly one when it does not panic. -/
theorem gatherOne_events (w : World) (io : IOCountersStat) :
    ∃ evs : List Metric, (gatherOne w io).1.acc = w.acc ++ evs ∧
      (∀ e ∈ evs, e.kind = .counter ∧ e.measurement = "net" ∧
        e.tags = [("interface", io.Name)]) ∧
      ((gatherOne w io).2 = false → ∃ a, evs = [counterMetric io a]) := by
  cases h : adaptFields (filledStatus w io) (mapKeys (counterFields io)) [] with
  | none =>
    obtain ⟨h1, h2⟩ := gatherOne_of_none w io h
    exact ⟨[], by simp [h2], by simp, by simp [h1]⟩
  | some a =>
    obtain ⟨h1, h2⟩ := gatherOne_of_some w io a h
    refine ⟨[counterMetric io a], h2, ?_, fun _ => ⟨a, rfl⟩⟩
    intro e he
    rw [List.mem_singleton.mp he]
    simp [counterMetric]

theorem gatherLoop_append (s : NetIOStats) (f : String → Bool)
    (bn : List (String × Interface)) (l1 l2 : List IOCountersStat) :
    ∀ w : World, gatherLoop s f bn w (l1 ++ l2) =
      if (gatherLoop s f bn w l1).2 = true then gatherLoop s f bn w l1
      else gatherLoop s f bn (gatherLoop s f bn w l1).1 l2 := by
  induction l1 with
  | nil => intro w; simp [gatherLoop]
  | cons io l1 ih =>
    intro w
    simp only [List.cons_append, gatherLoop]
    by_cases hs : skips s f bn io = true
    · simp only [hs, if_true]
      exact ih w
    · simp only [hs, if_false]
      rcases h1 : gatherOne w io with ⟨w1, b⟩
      cases b with
      | true => simp
      | false => simpa using ih w1

/-- The metrics the loop adds: counter metrics of entries that are not skipped, and one for
every such entry when the loop does not panic. -/
theorem gatherLoop_events (s : NetIOStats) (f : String → Bool)
    (bn : List (String × Interface)) (l : List IOCountersStat) :
    ∀ w : World, ∃ evs : List Metric, (gatherLoop s f bn w l).1.acc = w.acc ++ evs ∧
      (∀ e ∈ evs, e.kind = .counter ∧ e.measurement = "net" ∧
        ∃ io ∈ l, skips s f bn io = false ∧ e.tags = [("interface", io.Name)]) ∧
      ((gatherLoop s f bn w l).2 = false → ∀ io ∈ l, skips s f bn io = false →
        ∃ e ∈ evs, e.kind = .counter ∧ e.tags = [("interface", io.Name)]) := by
  induction l with
  | nil => intro w; exact ⟨[], by simp [gatherLoop], by simp, by simp⟩
  | cons io l ih =>
    intro w
    by_cases hs : skips s f bn io = true
    · obtain ⟨evs, h1, h2, h3⟩ := ih w
      refine ⟨evs, by simpa [gatherLoop, hs] using h1, ?_, ?_⟩
      · intro e he
        obtain ⟨hk, hm, io', hio', hsk, ht⟩ := h2 e he
        exact ⟨hk, hm, io', List.mem_cons_of_mem _ hio', hsk, ht⟩
      · intro hb io' hio' hsk
        rcases List.mem_cons.mp hio' with rfl | hmem
        · rw [hs] at hsk; exact absurd hsk (by simp)
        · exact h3 (by simpa [gatherLoop, hs] using hb) io' hmem hsk
    · have hs' : skips s f bn io = false := by simpa using hs
      obtain ⟨ev1, g1, g2, g3⟩ := gatherOne_events w io
      rcases hgo : gatherOne w io with ⟨w1, b⟩
      rw [hgo] at g1 g3
      cases b with
      | true =>
        refine ⟨ev1, by simpa [gatherLoop, hs', hgo] using g1, ?_, ?_⟩
        · intro e he
          obtain ⟨hk, hm, ht⟩ := g2 e he
          exact ⟨hk, hm, io, by simp, hs', ht⟩
        · intro hb
          simp [gatherLoop, hs', hgo] at hb
      | false =>
        obtain ⟨evs, h1, h2, h3⟩ := ih w1
        obtain ⟨a, ha⟩ := g3 rfl
        refine ⟨ev1 ++ evs, ?_, ?_, ?_⟩
        · simp only [gatherLoop, hs', hgo, Bool.false_eq_true, if_false]
          rw [h1, g1, List.append_assoc]
        · intro e he
          rcases List.mem_append.mp he with he | he
          · obtain ⟨hk, hm, ht⟩ := g2 e he
            exact ⟨hk, hm, io, by simp, hs', ht⟩
          · obtain ⟨hk, hm, io', hio', hsk, ht⟩ := h2 e he
            exact ⟨hk, hm, io', List.mem_cons_of_mem _ hio', hsk, ht⟩
        · intro hb io' hio' hsk
          have hb' : (gatherLoop s f bn w1 l).2 = false := by
            simpa [gatherLoop, hs', hgo] using hb
          rcases List.mem_cons.mp hio' with rfl | hmem
          · refine ⟨counterMetric io' a, ?_, by simp [counterMetric], by simp [counterMetric]⟩
            simp [ha]
          · obtain ⟨e, he, hk, ht⟩ := h3 hb' io' hmem hsk
            exact ⟨e, List.mem_append_right _ he, hk, ht⟩

/-- The loop leaves alone the record of a name that is not in the list. -/
theorem gatherLoop_statusMap_frame (s : NetIOStats) (f : String → Bool)
    (bn : List (String × Interface)) (name : String) (l : List IOCountersStat) :
    ∀ w : World, (∀ io ∈ l, io.Name ≠ name) →
      mapGet name (gatherLoop s f bn w l).1.statusMap = mapGet name w.statusMap := by
  induction l with
  | nil => intro w _; simp [gatherLoop]
  | cons io l ih =>
    intro w h
    have hne : name ≠ io.Name := fun e => h io (by simp) e.symm
    have hl : ∀ io' ∈ l, io'.Name ≠ name := fun io' hio' => h io' (List.mem_cons_of_mem _ hio')
    by_cases hs : skips s f bn io = true
    · simpa [gatherLoop, hs] using ih w hl
    · have hs' : skips s f bn io = false := by simpa using hs
      have hsm := gatherOne_statusMap w io
      rcases hgo : gatherOne w io with ⟨w1, b⟩
      rw [hgo] at hsm
      simp only at hsm
      have h1 : mapGet name w1.statusMap = mapGet name w.statusMap := by
        rw [hsm, mapGet_mapSet_ne _ _ _ _ hne]
      cases b with
      | true => simpa [gatherLoop, hs', hgo] using h1
      | false =>
        simp only [gatherLoop, hs', hgo, Bool.false_eq_true, if_false]
        rw [ih w1 hl, h1]

/-! ## Lemmas on `Gather` -/

/-- When the three fetches at the head of `Gather` succeed, `Gather` is its loop followed by
the protocol statistics. -/
theorem Gather_of_loop (env : Env) (s : NetIOStats) (w : World) (netio : List IOCountersStat)
    (f : String → Bool) (ifaces : List Interface)
    (hio : PS.NetIO s.ps = .ok netio) (hf : resolveFilter env s = .ok f)
    (hifs : env.Interfaces = .ok ifaces) :
    ((gatherLoop s f (interfacesByName ifaces) w netio).2 = true →
      (s.Gather env w).outcome = .panicked ∧
      (s.Gather env w).world.acc = (gatherLoop s f (interfacesByName ifaces) w netio).1.acc) ∧
    ((gatherLoop s f (interfacesByName ifaces) w netio).2 = false →
      (s.Gather env w).outcome = .returned none ∧
      (s.Gather env w).world.acc =
        (gatherLoop s f (interfacesByName ifaces) w netio).1.acc ++
          (if s.IgnoreProtocolStats = true then [] else [protoMetric env s])) := by
  unfold NetIOStats.Gather
  simp only [hio, hf, hifs]
  rcases hl : gatherLoop s f (interfacesByName ifaces) w netio with ⟨w1, b⟩
  cases b with
  | true => simp
  | false =>
    by_cases hp : s.IgnoreProtocolStats = true
    · simp [hp]
    · simp [hp, protoMetric]

/-- When `Gather` reaches an entry that is not skipped, in the world `w1` the entries before it
have left: a panic of the loop body there is the outcome of `Gather`, and otherwise the
accumulator keeps what the loop body hands over. -/
theorem Gather_at (env : Env) (s : NetIOStats) (w w1 : World)
    (front back : List IOCountersStat) (io : IOCountersStat)
    (f : String → Bool) (ifaces : List Interface)
    (hio : PS.NetIO s.ps = .ok (front ++ io :: back)) (hf : resolveFilter env s = .ok f)
    (hifs : env.Interfaces = .ok ifaces)
    (hfront : gatherLoop s f (interfacesByName ifaces) w front = (w1, false))
    (hact : skips s f (interfacesByName ifaces) io = false) :
    ((gatherOne w1 io).2 = true →
      (s.Gather env w).outcome = .panicked ∧
      (s.Gather env w).world.acc = (gatherOne w1 io).1.acc) ∧
    ((gatherOne w1 io).2 = false →
      (∃ rest, (s.Gather env w).world.acc = (gatherOne w1 io).1.acc ++ rest) ∧
      (back = [] → (s.Gather env w).outcome = .returned none)) := by
  obtain ⟨hA, hB⟩ := Gather_of_loop env s w (front ++ io :: back) f ifaces hio hf hifs
  have happ := gatherLoop_append s f (interfacesByName ifaces) front (io :: back) w
  rw [hfront] at happ
  simp only [Bool.false_eq_true, if_false, gatherLoop, hact] at happ
  rcases hgo : gatherOne w1 io with ⟨w2, b⟩
  rw [hgo] at happ
  cases b with
  | true =>
    simp only at happ
    rw [happ] at hA
    exact ⟨fun _ => hA rfl, fun h => absurd h (by simp)⟩
  | false =>
    simp only at happ
    refine ⟨fun h => absurd h (by simp), fun _ => ?_⟩
    obtain ⟨evs, he, -, -⟩ := gatherLoop_events s f (interfacesByName ifaces) back w2
    constructor
    · by_cases hb : (gatherLoop s f (interfacesByName ifaces) w2 back).2 = true
      · rw [happ] at hA
        exact ⟨evs, by rw [(hA hb).2, he]⟩
      · rw [happ] at hB
        have hb' : (gatherLoop s f (interfacesByName ifaces) w2 back).2 = false := by
          simpa using hb
        refine ⟨evs ++ (if s.IgnoreProtocolStats = true then [] else [protoMetric env s]), ?_⟩
        rw [(hB hb').2, he, List.append_assoc]
    · intro hback
      subst hback
      rw [happ] at hB
      exact (hB (by simp [gatherLoop])).1

/-! ## Lemmas on the deltas of a filled record -/

theorem filledStatus_of_some (w : World) (io : IOCountersStat) (st : Status)
    (h : mapGet io.Name w.statusMap = some st) :
    (filledStatus w io).LastStatus = st.CurrStatus ∧
    (filledStatus w io).CurrStatus = counterFields io ∧
    (filledStatus w io).LastTime = st.CurrTime ∧
    (filledStatus w io).CurrTime = w.clock 0 := by
  simp [filledStatus, statusOf, h, Status.Fill, timeNow]

theorem filledStatus_of_none (w : World) (io : IOCountersStat)
    (h : mapGet io.Name w.statusMap = none) :
    (filledStatus w io).LastStatus = [] ∧
    (filledStatus w io).CurrStatus = counterFields io := by
  simp [filledStatus, statusOf, h, Status.Fill, New, NewBaseStatus]

theorem elapsedSeconds_filled (w : World) (io : IOCountersStat) (st : Status)
    (h : mapGet io.Name w.statusMap = some st) :
    elapsedSeconds (filledStatus w io) = Int.tdiv (Time.Sub (w.clock 0) st.CurrTime) Second := by
  obtain ⟨-, -, h3, h4⟩ := filledStatus_of_some w io st h
  simp [elapsedSeconds, h3, h4, Duration.Nanoseconds]

/-- Every key of the switch is a key of the snapshot and bound to a decimal string. -/
theorem counterFields_key (io : IOCountersStat) (k : String)
    (hk : countingField k ∨ throughputField k) :
    k ∈ mapKeys (counterFields io) ∧
      ∃ c : Nat, mapGet k (counterFields io) = some (.str (sprintfD c)) := by
  rcases hk with (rfl | rfl | rfl | rfl) | (rfl | rfl | rfl | rfl) <;>
    exact ⟨by simp [counterFields, mapKeys], _, by simp only [counterFields, mapGet]; rfl⟩

/-- The delta of a filled record: current value minus previous value. -/
theorem delta_filled (w : World) (io : IOCountersStat) (st : Status) (k : String)
    (c : Nat) (p : Int) (h : mapGet io.Name w.statusMap = some st)
    (hp : (mapGet k st.CurrStatus).bind Value.toInt? = some p)
    (hc : mapGet k (counterFields io) = some (.str (sprintfD c))) :
    (filledStatus w io).GetPropertyDelta k = .ok ((c : Int) - p) := by
  obtain ⟨h1, h2, -, -⟩ := filledStatus_of_some w io st h
  simp [Status.GetPropertyDelta, h1, h2, hp, hc, toInt_str_sprintfD]

/-- A filled record has a delta only for a key with a numeric previous value. -/
theorem delta_filled_ok (w : World) (io : IOCountersStat) (st : Status) (k : String) (v : Int)
    (h : mapGet io.Name w.statusMap = some st)
    (hv : (filledStatus w io).GetPropertyDelta k = .ok v) :
    ∃ p, (mapGet k st.CurrStatus).bind Value.toInt? = some p := by
  obtain ⟨h1, -, -, -⟩ := filledStatus_of_some w io st h
  unfold Status.GetPropertyDelta at hv
  rw [h1] at hv
  cases hl : (mapGet k st.CurrStatus).bind Value.toInt? with
  | none => rw [hl] at hv; simp at hv
  | some p => exact ⟨p, rfl⟩

/-- The loop body panics on an entry with a record exactly when the whole seconds elapsed
are zero and some throughput field has a numeric previous value. -/
theorem gatherOne_panics_iff (w : World) (io : IOCountersStat) (st : Status)
    (h : mapGet io.Name w.statusMap = some st) :
    (gatherOne w io).2 = true ↔
      Int.tdiv (Time.Sub (w.clock 0) st.CurrTime) Second = 0 ∧
      ∃ k p, throughputField k ∧ (mapGet k st.CurrStatus).bind Value.toInt? = some p := by
  have hiff := adaptFields_eq_none_iff (filledStatus w io) (mapKeys (counterFields io)) []
  rw [elapsedSeconds_filled w io st h] at hiff
  constructor
  · intro hp
    cases ha : adaptFields (filledStatus w io) (mapKeys (counterFields io)) [] with
    | some a => rw [(gatherOne_of_some w io a ha).1] at hp; simp at hp
    | none =>
      obtain ⟨hz, k, -, hk, v, hv⟩ := hiff.1 ha
      obtain ⟨p, hp'⟩ := delta_filled_ok w io st k v h hv
      exact ⟨hz, k, p, hk, hp'⟩
  · rintro ⟨hz, k, p, hk, hp⟩
    obtain ⟨hmem, c, hc⟩ := counterFields_key io k (Or.inr hk)
    have ha := hiff.2 ⟨hz, k, hmem, hk, _, delta_filled w io st k c p h hp hc⟩
    exact (gatherOne_of_none w io ha).1

/-- The field the loop body emits under a key of the switch that has a numeric previous value,
when the body does not panic. -/
theorem gatherOne_field (w : World) (io : IOCountersStat) (st : Status) (k : String)
    (c : Nat) (p : Int) (x : Value) (h : mapGet io.Name w.statusMap = some st)
    (hp : (mapGet k st.CurrStatus).bind Value.toInt? = some p)
    (hc : mapGet k (counterFields io) = some (.str (sprintfD c)))
    (hcls : countingField k ∨ throughputField k)
    (hx : (countingField k → x = .int ((c : Int) - p)) ∧
      (throughputField k → x = .int (wrapInt64
        (Int.tdiv ((c : Int) - p) (Int.tdiv (Time.Sub (w.clock 0) st.CurrTime) Second)))))
    (hnp : (gatherOne w io).2 = false) :
    ∃ a, (gatherOne w io).1.acc = w.acc ++ [counterMetric io a] ∧ mapGet k a = some x := by
  have hd := delta_filled w io st k c p h hp hc
  cases ha : adaptFields (filledStatus w io) (mapKeys (counterFields io)) [] with
  | none => rw [(gatherOne_of_none w io ha).1] at hnp; simp at hnp
  | some a =>
    refine ⟨a, (gatherOne_of_some w io a ha).2, ?_⟩
    refine adaptFields_get (filledStatus w io) k x _ [] a ?_ ⟨_, hd⟩ hcls ha
      (Or.inl (counterFields_key io k hcls).1)
    intro v hv
    rw [hd] at hv
    have hv' : (c : Int) - p = v := by simpa using hv
    subst hv'
    rw [elapsedSeconds_filled w io st h]
    exact hx

theorem wrapInt64_of_range (x : Int) (h1 : minInt64 ≤ x) (h2 : x ≤ maxInt64) :
    wrapInt64 x = x := by
  unfold wrapInt64
  unfold minInt64 at h1
  unfold maxInt64 at h2
  omega

/-- The quotient of an `int64` other than the smallest by a non-zero number is an `int64`. -/
theorem tdiv_range (a b : Int) (h1 : minInt64 < a) (h2 : a ≤ maxInt64) :
    minInt64 ≤ Int.tdiv a b ∧ Int.tdiv a b ≤ maxInt64 := by
  have h := Int.natAbs_tdiv a b
  have hle : (Int.tdiv a b).natAbs ≤ a.natAbs := by
    rw [h]; exact Nat.div_le_self _ _
  unfold minInt64 at *
  unfold maxInt64 at *
  omega

theorem Time.Sub_of_range (t u : Time) (h1 : minInt64 ≤ t - u) (h2 : t - u ≤ maxInt64) :
    Time.Sub t u = t - u := by
  unfold Time.Sub
  rw [if_neg (not_lt.mpr h2), if_neg (not_lt.mpr h1)]

/-! ## Lemmas on visibility and on the protocol statistics -/

/-- The only metric that follows those of the loop is the protocol metric. -/
theorem mem_protoTail (env : Env) (s : NetIOStats) (e : Metric)
    (he : e ∈ (if s.IgnoreProtocolStats = true then [] else [protoMetric env s])) :
    e = protoMetric env s := by
  by_cases hp : s.IgnoreProtocolStats = true
  · simp [hp] at he
  · simpa [hp] using he


/-- Either one of the three fetches at the head of `Gather` fails, and `Gather` returns an
error with the accumulator untouched, or all three succeed. -/
theorem Gather_cases (env : Env) (s : NetIOStats) (w : World) :
    ((∃ msg, (s.Gather env w).outcome = .returned (some msg)) ∧
      (s.Gather env w).world.acc = w.acc ∧
      ((∃ err, PS.NetIO s.ps = .error err) ∨ (∃ err, resolveFilter env s = .error err) ∨
        (∃ err, env.Interfaces = .error err))) ∨
    (∃ netio f ifaces, PS.NetIO s.ps = .ok netio ∧ resolveFilter env s = .ok f ∧
      env.Interfaces = .ok ifaces) := by
  cases hio : PS.NetIO s.ps with
  | error err =>
    left
    refine ⟨⟨"error getting net io info: " ++ err, ?_⟩, ?_, Or.inl ⟨err, rfl⟩⟩ <;>
      simp [NetIOStats.Gather, hio]
  | ok netio =>
    cases hf : resolveFilter env s with
    | error err =>
      left
      refine ⟨⟨"error compiling filter: " ++ err, ?_⟩, ?_, Or.inr (Or.inl ⟨err, rfl⟩)⟩ <;>
        simp [NetIOStats.Gather, hio, hf]
    | ok f =>
      cases hifs : env.Interfaces with
      | error err =>
        left
        refine ⟨⟨"error getting list of interfaces: " ++ err, ?_⟩, ?_,
          Or.inr (Or.inr ⟨err, rfl⟩)⟩ <;>
          simp [NetIOStats.Gather, hio, hf, hifs]
      | ok ifaces => exact Or.inr ⟨netio, f, ifaces, rfl, rfl, rfl⟩

theorem mem_mapKeys_foldl_mapSet {α β : Type} (g : α → String × β) (x : String)
    (l : List α) : ∀ m0 : List (String × β),
      x ∈ mapKeys (l.foldl (fun m a => mapSet (g a).1 (g a).2 m) m0) ↔
        x ∈ mapKeys m0 ∨ ∃ a ∈ l, (g a).1 = x := by
  induction l with
  | nil => intro m0; simp
  | cons a l ih =>
    intro m0
    simp only [List.foldl_cons, ih, mem_mapKeys_mapSet, List.mem_cons, exists_eq_or_imp]
    constructor
    · rintro ((h | h) | h)
      · exact Or.inr (Or.inl h.symm)
      · exact Or.inl h
      · exact Or.inr (Or.inr h)
    · rintro (h | h | h)
      · exact Or.inl (Or.inr h)
      · exact Or.inl (Or.inl h.symm)
      · exact Or.inr h

theorem mapGet_foldl_mapSet {α β : Type} (g : α → String × β) (k : String) (v : β)
    (l : List α) : ∀ m0 : List (String × β),
      (∀ a ∈ l, (g a).1 = k → (g a).2 = v) →
      ((∃ a ∈ l, (g a).1 = k) ∨ mapGet k m0 = some v) →
      mapGet k (l.foldl (fun m a => mapSet (g a).1 (g a).2 m) m0) = some v := by
  induction l with
  | nil =>
    intro m0 _ h
    simpa using h
  | cons a l ih =>
    intro m0 hall h
    simp only [List.foldl_cons]
    apply ih
    · exact fun b hb => hall b (List.mem_cons_of_mem _ hb)
    · by_cases hk : (g a).1 = k
      · right
        rw [hk, hall a (by simp) hk, mapGet_mapSet_self]
      · rcases h with ⟨b, hb, hbk⟩ | h
        · rcases List.mem_cons.mp hb with rfl | hb
          · exact absurd hbk hk
          · exact Or.inl ⟨b, hb, hbk⟩
        · right
          rw [mapGet_mapSet_ne _ _ _ _ (fun e => hk e.symm)]
          exact h

/-- A name has no entry in `interfacesByName` exactly when no system interface carries it. -/
theorem interfacesByName_none_iff (ifaces : List Interface) (name : String) :
    mapGet name (interfacesByName ifaces) = none ↔ ∀ iface ∈ ifaces, iface.Name ≠ name := by
  rw [mapGet_none_iff]
  unfold interfacesByName
  rw [mem_mapKeys_foldl_mapSet (fun iface : Interface => (iface.Name, iface))]
  simp [mapKeys]

/-- Without an allow-list and without `skipChecks`, an entry is kept exactly when the system
interface of its name exists, is not the loopback and is up. -/
theorem skips_eq_false_default (s : NetIOStats) (f : String → Bool)
    (bn : List (String × Interface)) (io : IOCountersStat)
    (hall : s.Interfaces = []) (hchk : s.skipChecks = false) :
    skips s f bn io = false ↔
      ∃ iface, mapGet io.Name bn = some iface ∧
        iface.Flags &&& FlagLoopback ≠ FlagLoopback ∧ iface.Flags &&& FlagUp ≠ 0 := by
  unfold skips
  simp only [hall, hchk, List.length_nil, ne_eq, not_true_eq_false, if_false, Bool.not_false,
    if_true]
  cases hget : mapGet io.Name bn with
  | none => simp
  | some iface =>
    by_cases h1 : iface.Flags &&& FlagLoopback = FlagLoopback
    · simp [h1]
    · by_cases h2 : iface.Flags &&& FlagUp = 0
      · simp [h1, h2]
      · simp [h1, h2]

/-- With an allow-list, an entry is kept exactly when the filter matches its name. -/
theorem skips_eq_false_allow_list (s : NetIOStats) (f : String → Bool)
    (bn : List (String × Interface)) (io : IOCountersStat) (hne : s.Interfaces ≠ []) :
    skips s f bn io = false ↔ f io.Name = true := by
  unfold skips
  have hlen : s.Interfaces.length ≠ 0 := fun h => hne (List.length_eq_zero.mp h)
  simp [hlen]

/-- With an allow-list the loop does not read the system interfaces. -/
theorem gatherLoop_allow_list (s : NetIOStats) (f : String → Bool)
    (bn1 bn2 : List (String × Interface)) (hne : s.Interfaces ≠ []) (l : List IOCountersStat) :
    ∀ w : World, gatherLoop s f bn1 w l = gatherLoop s f bn2 w l := by
  have hsk : ∀ io, skips s f bn1 io = skips s f bn2 io := by
    intro io
    unfold skips
    have hlen : s.Interfaces.length ≠ 0 := fun h => hne (List.length_eq_zero.mp h)
    simp [hlen]
  induction l with
  | nil => intro w; rfl
  | cons io l ih =>
    intro w
    simp only [gatherLoop, hsk io]
    split
    · exact ih w
    · rcases gatherOne w io with ⟨w1, b⟩
      cases b with
      | true => rfl
      | false => exact ih w1

theorem mem_mapKeys_protoFields (toLower : String → String) (x : String)
    (netprotos : List ProtoCountersStat) :
    x ∈ mapKeys (protoFields toLower netprotos) ↔
      ∃ proto ∈ netprotos, ∃ sv ∈ proto.Stats, protoKey toLower proto.Protocol sv.1 = x := by
  have hgen : ∀ (l : List ProtoCountersStat) (m0 : Fields),
      x ∈ mapKeys (l.foldl (fun fields proto => proto.Stats.foldl
        (fun fields sv => mapSet (toLower proto.Protocol ++ "_" ++ toLower sv.1) (.int sv.2)
          fields) fields) m0) ↔
      x ∈ mapKeys m0 ∨
        ∃ proto ∈ l, ∃ sv ∈ proto.Stats, protoKey toLower proto.Protocol sv.1 = x := by
    intro l
    induction l with
    | nil => intro m0; simp
    | cons proto l ih =>
      intro m0
      simp only [List.foldl_cons, ih, List.mem_cons, exists_eq_or_imp]
      rw [mem_mapKeys_foldl_mapSet
        (fun sv : String × Int => (toLower proto.Protocol ++ "_" ++ toLower sv.1, Value.int sv.2))]
      simp only [protoKey, or_assoc]
  have h := hgen netprotos []
  simpa [protoFields, mapKeys] using h

theorem mapGet_protoFields (toLower : String → String) (k : String) (v : Int)
    (netprotos : List ProtoCountersStat)
    (hall : ∀ proto ∈ netprotos, ∀ sv ∈ proto.Stats,
      protoKey toLower proto.Protocol sv.1 = k → sv.2 = v)
    (hex : ∃ proto ∈ netprotos, ∃ sv ∈ proto.Stats, protoKey toLower proto.Protocol sv.1 = k) :
    mapGet k (protoFields toLower netprotos) = some (.int v) := by
  have hgen : ∀ (l : List ProtoCountersStat) (m0 : Fields),
      (∀ proto ∈ l, ∀ sv ∈ proto.Stats,
        protoKey toLower proto.Protocol sv.1 = k → sv.2 = v) →
      ((∃ proto ∈ l, ∃ sv ∈ proto.Stats, protoKey toLower proto.Protocol sv.1 = k) ∨
        mapGet k m0 = some (.int v)) →
      mapGet k (l.foldl (fun fields proto => proto.Stats.foldl
        (fun fields sv => mapSet (toLower proto.Protocol ++ "_" ++ toLower sv.1) (.int sv.2)
          fields) fields) m0) = some (.int v) := by
    intro l
    induction l with
    | nil =>
      intro m0 _ h
      simpa using h
    | cons proto l ih =>
      intro m0 hall h
      simp only [List.foldl_cons]
      apply ih
      · exact fun q hq => hall q (List.mem_cons_of_mem _ hq)
      · by_cases hin : ∃ sv ∈ proto.Stats, protoKey toLower proto.Protocol sv.1 = k
        · right
          apply mapGet_foldl_mapSet
            (fun sv : String × Int =>
              (toLower proto.Protocol ++ "_" ++ toLower sv.1, Value.int sv.2))
          · intro sv hsv hk
            simp only at hk ⊢
            rw [hall proto (by simp) sv hsv hk]
          · exact Or.inl hin
        · rcases h with ⟨q, hq, sv, hsv, hk⟩ | h
          · rcases List.mem_cons.mp hq with rfl | hq
            · exact absurd ⟨sv, hsv, hk⟩ hin
            · exact Or.inl ⟨q, hq, sv, hsv, hk⟩
          · right
            have hkeep : ∀ (st : List (String × Int)) (m : Fields),
                (∀ sv ∈ st, protoKey toLower proto.Protocol sv.1 ≠ k) →
                mapGet k (st.foldl (fun fields sv =>
                  mapSet (toLower proto.Protocol ++ "_" ++ toLower sv.1) (.int sv.2) fields) m) =
                  mapGet k m := by
              intro st
              induction st with
              | nil => intro m _; rfl
              | cons sv st ihs =>
                intro m hne
                simp only [List.foldl_cons]
                rw [ihs _ (fun sv1 h1 => hne sv1 (List.mem_cons_of_mem _ h1))]
                exact mapGet_mapSet_ne _ _ _ _ (fun e => hne sv (by simp) e.symm)
            rw [hkeep proto.Stats m0 (fun sv hsv hk => hin ⟨sv, hsv, hk⟩)]
            exact h
  exact hgen netprotos [] hall (Or.inl hex)

/-! ## Claims on the status record -/

/-- C1: after `Fill(newFields)` the record has LastStatus equal to the CurrStatus held before
the call, LastTime equal to the CurrTime held before the call, CurrStatus equal to newFields and
CurrTime equal to the clock reading taken during the call (the one reading `time.Now()`
consumes); the call returns a nil error and leaves the name of the record alone. -/
theorem Fill_shifts_current_to_last (g : Status) (clock : Clock) (newFields : Fields) :
    (g.Fill clock newFields).1.LastStatus = g.CurrStatus ∧
    (g.Fill clock newFields).1.LastTime = g.CurrTime ∧
    (g.Fill clock newFields).1.CurrStatus = newFields ∧
    (g.Fill clock newFields).1.CurrTime = (timeNow clock).1 ∧
    (timeNow clock).1 = clock 0 ∧
    (g.Fill clock newFields).2.1 = (timeNow clock).2 ∧
    (g.Fill clock newFields).2.2 = none ∧
    (g.Fill clock newFields).1.Name = g.Name := by
  simp [Status.Fill, timeNow]

/-! ## Claims on the deltas and rates -/

/-- C2: when `Gather` reaches an entry `io` that is not skipped and whose record holds a
previous value `p` of a throughput field `k` (bytes_sent, bytes_recv, packets_sent,
packets_recv), with current value `c`: if the whole seconds elapsed (the duration between the
previous timestamp and the clock reading of this update, truncated to seconds) are not zero,
the counter metric handed over for `io` binds `k` to `(c - p)` divided by these seconds, an
`int64` division truncating toward zero (no wrap when `c - p` is an `int64` other than the
smallest); if they are zero `Gather` panics and hands over nothing for `io`. The duration is
the difference of the two timestamps whenever that fits a duration. -/
theorem Gather_throughput_field_is_rate (env : Env) (s : NetIOStats) (w w1 : World)
    (front back : List IOCountersStat) (io : IOCountersStat) (f : String → Bool)
    (ifaces : List Interface) (st : Status) (k : String) (c : Nat) (p : Int)
    (hio : PS.NetIO s.ps = .ok (front ++ io :: back))
    (hf : resolveFilter env s = .ok f)
    (hifs : env.Interfaces = .ok ifaces)
    (hfront : gatherLoop s f (interfacesByName ifaces) w front = (w1, false))
    (hact : skips s f (interfacesByName ifaces) io = false)
    (hst : mapGet io.Name w1.statusMap = some st)
    (hk : throughputField k)
    (hp : (mapGet k st.CurrStatus).bind Value.toInt? = some p)
    (hc : mapGet k (counterFields io) = some (.str (sprintfD c))) :
    (Int.tdiv (Time.Sub (w1.clock 0) st.CurrTime) Second ≠ 0 →
      ∃ m rest, (s.Gather env w).world.acc = w1.acc ++ m :: rest ∧
        m.kind = .counter ∧ m.measurement = "net" ∧ m.tags = [("interface", io.Name)] ∧
        mapGet k m.fields = some (.int (wrapInt64
          (Int.tdiv ((c : Int) - p) (Int.tdiv (Time.Sub (w1.clock 0) st.CurrTime) Second)))) ∧
        (minInt64 < (c : Int) - p → (c : Int) - p ≤ maxInt64 →
          mapGet k m.fields = some (.int
            (Int.tdiv ((c : Int) - p) (Int.tdiv (Time.Sub (w1.clock 0) st.CurrTime) Second))))) ∧
    (Int.tdiv (Time.Sub (w1.clock 0) st.CurrTime) Second = 0 →
      (s.Gather env w).outcome = .panicked ∧ (s.Gather env w).world.acc = w1.acc) ∧
    (minInt64 ≤ w1.clock 0 - st.CurrTime → w1.clock 0 - st.CurrTime ≤ maxInt64 →
      Time.Sub (w1.clock 0) st.CurrTime = w1.clock 0 - st.CurrTime) := by
  obtain ⟨hA, hB⟩ := Gather_at env s w w1 front back io f ifaces hio hf hifs hfront hact
  have hiff := gatherOne_panics_iff w1 io st hst
  refine ⟨?_, ?_, Time.Sub_of_range _ _⟩
  · intro hne
    have hnp : (gatherOne w1 io).2 = false := by
      cases hb : (gatherOne w1 io).2 with
      | false => rfl
      | true => exact absurd (hiff.1 hb).1 hne
    obtain ⟨a, hacc, hget⟩ := gatherOne_field w1 io st k c p _ hst hp hc (Or.inr hk)
      ⟨fun hcnt => absurd hcnt (throughput_not_counting k hk), fun _ => rfl⟩ hnp
    obtain ⟨rest, hrest⟩ := (hB hnp).1
    refine ⟨counterMetric io a, rest, ?_, rfl, rfl, rfl, hget, ?_⟩
    · rw [hrest, hacc, List.append_assoc]
      rfl
    · intro h1 h2
      have hr := tdiv_range ((c : Int) - p)
        (Int.tdiv (Time.Sub (w1.clock 0) st.CurrTime) Second) h1 h2
      have hw := wrapInt64_of_range _ hr.1 hr.2
      show mapGet k a = _
      rw [hget, hw]
  · intro hz
    have hb : (gatherOne w1 io).2 = true := hiff.2 ⟨hz, k, p, hk, hp⟩
    obtain ⟨ho, hacc⟩ := hA hb
    refine ⟨ho, ?_⟩
    rw [hacc]
    cases ha : adaptFields (filledStatus w1 io) (mapKeys (counterFields io)) [] with
    | none => exact (gatherOne_of_none w1 io ha).2
    | some a => rw [(gatherOne_of_some w1 io a ha).1] at hb; simp at hb

/-- C2 on the run of the spec: bytes_sent 1000, then 3000 two seconds later, is emitted as
1000. -/
theorem Gather_throughput_field_is_rate_witness :
    ∃ m rest, ((demoStats [demoIO2]).Gather demoEnv demoWorld1).world.acc =
        demoWorld1.acc ++ m :: rest ∧
      m.tags = [("interface", "eth0")] ∧ mapGet "bytes_sent" m.fields = some (.int 1000) := by
  have h := Gather_throughput_field_is_rate demoEnv (demoStats [demoIO2]) demoWorld1 demoWorld1
    [] [] demoIO2 demoFilter [⟨"eth0", 1⟩, ⟨"lo", 5⟩, ⟨"eth1", 0⟩] (demoRecord 1000000000)
    "bytes_sent" 3000 1000 rfl rfl rfl rfl (by decide) (by decide) (Or.inl rfl) (by decide)
    (by decide)
  obtain ⟨m, rest, h1, -, -, h4, -, h6⟩ := h.1 (by decide)
  exact ⟨m, rest, h1, h4, h6 (by decide) (by decide)⟩

/-- C3 as stated fails: after a first cycle that stored err_in 5 for `eth0`, a second cycle half
a second later reads err_in 9; the entry is not skipped, yet `Gather` panics on the rate
division and hands over nothing, so no err_in = 4 is emitted. -/
theorem Gather_emits_no_delta_under_one_second :
    mapGet "eth0" demoWorldFast1.statusMap = some (demoRecord 500000000) ∧
    mapGet "err_in" (demoRecord 500000000).CurrStatus = some (.str "5") ∧
    mapGet "err_in" (counterFields demoIO2) = some (.str "9") ∧
    skips (demoStats [demoIO2]) demoFilter
      (interfacesByName [⟨"eth0", 1⟩, ⟨"lo", 5⟩, ⟨"eth1", 0⟩]) demoIO2 = false ∧
    demoWorldFast1.clock 0 - (demoRecord 500000000).CurrTime = 500000000 ∧
    ((demoStats [demoIO2]).Gather demoEnv demoWorldFast1).outcome = .panicked ∧
    ((demoStats [demoIO2]).Gather demoEnv demoWorldFast1).world.acc = demoWorldFast1.acc ∧
    ∀ m ∈ ((demoStats [demoIO2]).Gather demoEnv demoWorldFast1).world.acc,
      mapGet "err_in" m.fields ≠ some (.int 4) := by
  decide

/-- C3, amended: when `Gather` reaches an entry `io` that is not skipped and whose record holds
a previous value `p` of a counting field `k` (err_in, err_out, drop_in, drop_out), with current
value `c` and `c - p` an `int64`: unless the whole seconds elapsed are zero while a throughput
field has a previous value, the counter metric handed over for `io` binds `k` to exactly
`c - p`, unmodified; the elapsed time does not enter the value. -/
theorem Gather_counting_field_is_delta (env : Env) (s : NetIOStats) (w w1 : World)
    (front back : List IOCountersStat) (io : IOCountersStat) (f : String → Bool)
    (ifaces : List Interface) (st : Status) (k : String) (c : Nat) (p : Int)
    (hio : PS.NetIO s.ps = .ok (front ++ io :: back))
    (hf : resolveFilter env s = .ok f)
    (hifs : env.Interfaces = .ok ifaces)
    (hfront : gatherLoop s f (interfacesByName ifaces) w front = (w1, false))
    (hact : skips s f (interfacesByName ifaces) io = false)
    (hst : mapGet io.Name w1.statusMap = some st)
    (hk : countingField k)
    (hp : (mapGet k st.CurrStatus).bind Value.toInt? = some p)
    (hc : mapGet k (counterFields io) = some (.str (sprintfD c)))
    (hlo : minInt64 ≤ (c : Int) - p) (hhi : (c : Int) - p ≤ maxInt64)
    (hok : ¬ (Int.tdiv (Time.Sub (w1.clock 0) st.CurrTime) Second = 0 ∧
      ∃ k1 p1, throughputField k1 ∧ (mapGet k1 st.CurrStatus).bind Value.toInt? = some p1)) :
    ∃ m rest, (s.Gather env w).world.acc = w1.acc ++ m :: rest ∧
      m.kind = .counter ∧ m.measurement = "net" ∧ m.tags = [("interface", io.Name)] ∧
      mapGet k m.fields = some (.int ((c : Int) - p)) ∧
      wrapInt64 ((c : Int) - p) = (c : Int) - p := by
  obtain ⟨-, hB⟩ := Gather_at env s w w1 front back io f ifaces hio hf hifs hfront hact
  have hiff := gatherOne_panics_iff w1 io st hst
  have hnp : (gatherOne w1 io).2 = false := by
    cases hb : (gatherOne w1 io).2 with
    | false => rfl
    | true => exact absurd (hiff.1 hb) hok
  obtain ⟨a, hacc, hget⟩ := gatherOne_field w1 io st k c p _ hst hp hc (Or.inl hk)
    ⟨fun _ => rfl, fun ht => absurd hk (throughput_not_counting k ht)⟩ hnp
  obtain ⟨rest, hrest⟩ := (hB hnp).1
  refine ⟨counterMetric io a, rest, ?_, rfl, rfl, rfl, hget, wrapInt64_of_range _ hlo hhi⟩
  rw [hrest, hacc, List.append_assoc]
  rfl

/-- C3, amended, on the run of the spec: err_in 5, then 9 two seconds later, is emitted as 4. -/
theorem Gather_counting_field_is_delta_witness :
    ∃ m rest, ((demoStats [demoIO2]).Gather demoEnv demoWorld1).world.acc =
        demoWorld1.acc ++ m :: rest ∧
      m.tags = [("interface", "eth0")] ∧ mapGet "err_in" m.fields = some (.int 4) := by
  obtain ⟨m, rest, h1, -, -, h4, h5, -⟩ :=
    Gather_counting_field_is_delta demoEnv (demoStats [demoIO2]) demoWorld1 demoWorld1
      [] [] demoIO2 demoFilter [⟨"eth0", 1⟩, ⟨"lo", 5⟩, ⟨"eth1", 0⟩] (demoRecord 1000000000)
      "err_in" 9 5 rfl rfl rfl rfl (by decide) (by decide) (Or.inl rfl) (by decide) (by decide)
      (by decide) (by decide) (fun hc => absurd hc.1 (by decide))
  exact ⟨m, rest, h1, h4, h5⟩

/-- C4: when `Gather` reaches an entry `io` that is not skipped, whose name has no record in
the store before the cycle and does not occur earlier in the raw counter list, the counter
metric handed over for `io` has the empty field mapping: every field lacks a delta and is
left out. The loop body does not panic there; when `io` is the last entry `Gather` returns
nil. -/
theorem Gather_first_observation_emits_no_field (env : Env) (s : NetIOStats) (w w1 : World)
    (front back : List IOCountersStat) (io : IOCountersStat) (f : String → Bool)
    (ifaces : List Interface)
    (hio : PS.NetIO s.ps = .ok (front ++ io :: back))
    (hf : resolveFilter env s = .ok f)
    (hifs : env.Interfaces = .ok ifaces)
    (hfront : gatherLoop s f (interfacesByName ifaces) w front = (w1, false))
    (hact : skips s f (interfacesByName ifaces) io = false)
    (hnew : mapGet io.Name w.statusMap = none)
    (hfirst : ∀ io1 ∈ front, io1.Name ≠ io.Name) :
    (∃ rest, (s.Gather env w).world.acc =
      w1.acc ++ ⟨.counter, "net", [], [("interface", io.Name)]⟩ :: rest) ∧
    (back = [] → (s.Gather env w).outcome = .returned none) := by
  obtain ⟨-, hB⟩ := Gather_at env s w w1 front back io f ifaces hio hf hifs hfront hact
  have hw1 : mapGet io.Name w1.statusMap = none := by
    have h := gatherLoop_statusMap_frame s f (interfacesByName ifaces) io.Name front w hfirst
    rw [hfront] at h
    rw [h, hnew]
  obtain ⟨hlast, -⟩ := filledStatus_of_none w1 io hw1
  have ha : adaptFields (filledStatus w1 io) (mapKeys (counterFields io)) [] = some [] := by
    apply adaptFields_no_delta
    intro k _
    refine ⟨"no delta available for " ++ k, ?_⟩
    simp [Status.GetPropertyDelta, hlast, mapGet]
  obtain ⟨hnp, hacc⟩ := gatherOne_of_some w1 io [] ha
  obtain ⟨⟨rest, hrest⟩, hback⟩ := hB hnp
  refine ⟨⟨rest, ?_⟩, hback⟩
  rw [hrest, hacc, List.append_assoc]
  rfl

/-- C4 on a first cycle: the metric of `eth0` carries no field and `Gather` returns nil. -/
theorem Gather_first_observation_emits_no_field_witness :
    (∃ rest, ((demoStats [demoIO1]).Gather demoEnv demoWorld0).world.acc =
      demoWorld0.acc ++ ⟨.counter, "net", [], [("interface", "eth0")]⟩ :: rest) ∧
    ((demoStats [demoIO1]).Gather demoEnv demoWorld0).outcome = .returned none := by
  have h := Gather_first_observation_emits_no_field demoEnv (demoStats [demoIO1]) demoWorld0
    demoWorld0 [] [] demoIO1 demoFilter [⟨"eth0", 1⟩, ⟨"lo", 5⟩, ⟨"eth1", 0⟩]
    rfl rfl rfl rfl (by decide) (by decide) (by simp)
  exact ⟨h.1, h.2 rfl⟩

/-- C10: when `Gather` reaches an entry `io` that is not skipped, whose record `st` is in the
store, and the delta lookup of a throughput field succeeds on the filled record (there is a
previous snapshot), on a clock that has not run backwards since the previous update: if less
than one second has elapsed the divisor of the rate is zero, the division of the delta by it is
a division by zero, and `Gather` panics with nothing handed over for `io`; if at least one
second has elapsed the divisor is a positive integer, the division is defined, and the loop
body hands over the counter metric of `io`. -/
theorem Gather_divides_by_zero_under_one_second (env : Env) (s : NetIOStats) (w w1 : World)
    (front back : List IOCountersStat) (io : IOCountersStat) (f : String → Bool)
    (ifaces : List Interface) (st : Status) (k : String) (v : Int)
    (hio : PS.NetIO s.ps = .ok (front ++ io :: back))
    (hf : resolveFilter env s = .ok f)
    (hifs : env.Interfaces = .ok ifaces)
    (hfront : gatherLoop s f (interfacesByName ifaces) w front = (w1, false))
    (hact : skips s f (interfacesByName ifaces) io = false)
    (hst : mapGet io.Name w1.statusMap = some st)
    (hk : throughputField k)
    (hd : (st.Fill w1.clock (counterFields io)).1.GetPropertyDelta k = .ok v)
    (hclock : st.CurrTime ≤ w1.clock 0) :
    (w1.clock 0 - st.CurrTime < Second →
      Int.tdiv (Time.Sub (w1.clock 0) st.CurrTime) Second = 0 ∧
      int64Div v (Int.tdiv (Time.Sub (w1.clock 0) st.CurrTime) Second) = none ∧
      (s.Gather env w).outcome = .panicked ∧ (s.Gather env w).world.acc = w1.acc) ∧
    (Second ≤ w1.clock 0 - st.CurrTime →
      0 < Int.tdiv (Time.Sub (w1.clock 0) st.CurrTime) Second ∧
      int64Div v (Int.tdiv (Time.Sub (w1.clock 0) st.CurrTime) Second) =
        some (wrapInt64 (Int.tdiv v (Int.tdiv (Time.Sub (w1.clock 0) st.CurrTime) Second))) ∧
      ∃ m rest, (s.Gather env w).world.acc = w1.acc ++ m :: rest ∧
        m.kind = .counter ∧ m.tags = [("interface", io.Name)]) := by
  obtain ⟨hA, hB⟩ := Gather_at env s w w1 front back io f ifaces hio hf hifs hfront hact
  have hfilled : filledStatus w1 io = (st.Fill w1.clock (counterFields io)).1 := by
    simp [filledStatus, statusOf, hst]
  have hnone := adaptFields_eq_none_iff (filledStatus w1 io) (mapKeys (counterFields io)) []
  rw [elapsedSeconds_filled w1 io st hst] at hnone
  have hsub : 0 ≤ Time.Sub (w1.clock 0) st.CurrTime := by
    unfold Time.Sub
    split
    · decide
    · split
      · rename_i h1 h2
        have h0 : (0 : Int) ≤ w1.clock 0 - st.CurrTime := sub_nonneg.mpr hclock
        have h3 : w1.clock 0 - st.CurrTime < 0 := lt_trans h2 (by decide)
        exact absurd h0 (not_le.mpr h3)
      · exact sub_nonneg.mpr hclock
  have hediv : Int.tdiv (Time.Sub (w1.clock 0) st.CurrTime) Second =
      Time.Sub (w1.clock 0) st.CurrTime / Second :=
    Int.tdiv_eq_ediv hsub (by decide)
  constructor
  · intro hlt
    have hz : Int.tdiv (Time.Sub (w1.clock 0) st.CurrTime) Second = 0 := by
      have hle : w1.clock 0 - st.CurrTime ≤ maxInt64 :=
        le_trans (le_of_lt hlt) (by decide)
      have hge : minInt64 ≤ w1.clock 0 - st.CurrTime :=
        le_trans (by decide) (sub_nonneg.mpr hclock)
      rw [Time.Sub_of_range _ _ hge hle]
      exact Int.tdiv_eq_zero_of_lt (sub_nonneg.mpr hclock) hlt
    have ha : adaptFields (filledStatus w1 io) (mapKeys (counterFields io)) [] = none :=
      hnone.2 ⟨hz, k, (counterFields_key io k (Or.inr hk)).1, hk, v, by rw [hfilled]; exact hd⟩
    obtain ⟨hb, hacc1⟩ := gatherOne_of_none w1 io ha
    obtain ⟨ho, hacc⟩ := hA hb
    exact ⟨hz, (int64Div_eq_none v _).2 hz, ho, by rw [hacc, hacc1]⟩
  · intro hge
    have hsec : Second ≤ Time.Sub (w1.clock 0) st.CurrTime := by
      unfold Time.Sub
      split
      · decide
      · split
        · rename_i h1 h2
          have h0 : (0 : Int) ≤ w1.clock 0 - st.CurrTime := sub_nonneg.mpr hclock
          have h3 : w1.clock 0 - st.CurrTime < 0 := lt_trans h2 (by decide)
          exact absurd h0 (not_le.mpr h3)
        · exact hge
    have hpos : 0 < Int.tdiv (Time.Sub (w1.clock 0) st.CurrTime) Second := by
      rw [hediv]
      have hdiv : ∀ x : Int, 1000000000 ≤ x → 0 < x / 1000000000 := by
        intro x hx
        omega
      exact hdiv _ hsec
    have hne : Int.tdiv (Time.Sub (w1.clock 0) st.CurrTime) Second ≠ 0 := ne_of_gt hpos
    have hnp : (gatherOne w1 io).2 = false := by
      cases ha : adaptFields (filledStatus w1 io) (mapKeys (counterFields io)) [] with
      | none => exact absurd (hnone.1 ha).1 hne
      | some a => exact (gatherOne_of_some w1 io a ha).1
    obtain ⟨evs, hacc, -, hone⟩ := gatherOne_events w1 io
    obtain ⟨a, ha⟩ := hone hnp
    obtain ⟨rest, hrest⟩ := (hB hnp).1
    refine ⟨hpos, int64Div_of_ne v _ hne, counterMetric io a, rest, ?_, rfl, rfl⟩
    rw [hrest, hacc, ha, List.append_assoc]
    rfl

/-- C10 on a second cycle half a second after the first: the delta of bytes_sent is 2000, the
divisor is zero and `Gather` panics. -/
theorem Gather_divides_by_zero_under_one_second_witness :
    ((demoStats [demoIO2]).Gather demoEnv demoWorldFast1).outcome = .panicked ∧
    ((demoStats [demoIO2]).Gather demoEnv demoWorldFast1).world.acc = demoWorldFast1.acc := by
  have h := Gather_divides_by_zero_under_one_second demoEnv (demoStats [demoIO2])
    demoWorldFast1 demoWorldFast1 [] [] demoIO2 demoFilter
    [⟨"eth0", 1⟩, ⟨"lo", 5⟩, ⟨"eth1", 0⟩] (demoRecord 500000000)
    "bytes_sent" 2000 rfl rfl rfl rfl (by decide) (by decide) (Or.inl rfl) rfl
    (by decide)
  exact (h.1 (by decide)).2.2

/-! ## Claims on visibility -/

/-- C5 as stated fails: with no allow-list but `skipChecks` set, the loopback interface is
emitted. -/
theorem Gather_emits_loopback_when_checks_skipped :
    (demoStatsSkipChecks [demoLo]).Interfaces = [] ∧
    mapGet "lo" (interfacesByName [⟨"eth0", 1⟩, ⟨"lo", 5⟩, ⟨"eth1", 0⟩]) = some ⟨"lo", 5⟩ ∧
    5 &&& FlagLoopback = FlagLoopback ∧
    ((demoStatsSkipChecks [demoLo]).Gather demoEnv demoWorld0).world.acc =
      [⟨.counter, "net", [], [("interface", "lo")]⟩,
       ⟨.fields, "net", [("tcp_activeopens", .int 7)], [("interface", "all")]⟩] := by
  decide

/-- C5, amended: in a cycle with no allow-list and `skipChecks` unset whose fetches succeed,
every counter metric handed over is tagged with the name of an entry of the raw counter list
whose system interface exists, is not the loopback and is up; so nothing is emitted for a
loopback interface, a down interface or one absent from the system interfaces (those that no
system interface names). When `Gather` returns nil, every entry whose system interface is up
and not the loopback has its counter metric. -/
theorem Gather_default_visibility (env : Env) (s : NetIOStats) (w : World)
    (netio : List IOCountersStat) (ifaces : List Interface)
    (hio : PS.NetIO s.ps = .ok netio) (hifs : env.Interfaces = .ok ifaces)
    (hall : s.Interfaces = []) (hchk : s.skipChecks = false) :
    ∃ evs, (s.Gather env w).world.acc = w.acc ++ evs ∧
      (∀ e ∈ evs, e.kind = .counter → ∀ name, e.tags = [("interface", name)] →
        (∃ io ∈ netio, io.Name = name) ∧
        ∃ iface, mapGet name (interfacesByName ifaces) = some iface ∧
          iface.Flags &&& FlagLoopback ≠ FlagLoopback ∧ iface.Flags &&& FlagUp ≠ 0) ∧
      (∀ name, (∀ iface ∈ ifaces, iface.Name ≠ name) →
        ∀ e ∈ evs, e.kind = .counter → e.tags ≠ [("interface", name)]) ∧
      ((s.Gather env w).outcome = .returned none →
        ∀ io ∈ netio, ∀ iface, mapGet io.Name (interfacesByName ifaces) = some iface →
          iface.Flags &&& FlagLoopback ≠ FlagLoopback → iface.Flags &&& FlagUp ≠ 0 →
          ∃ e ∈ evs, e.kind = .counter ∧ e.tags = [("interface", io.Name)]) := by
  have hvis : ∀ (f : String → Bool) (evs : List Metric),
      (∀ e ∈ evs, e.kind = .counter → ∃ io ∈ netio,
        skips s f (interfacesByName ifaces) io = false ∧ e.tags = [("interface", io.Name)]) →
      (∀ e ∈ evs, e.kind = .counter → ∀ name, e.tags = [("interface", name)] →
        (∃ io ∈ netio, io.Name = name) ∧
        ∃ iface, mapGet name (interfacesByName ifaces) = some iface ∧
          iface.Flags &&& FlagLoopback ≠ FlagLoopback ∧ iface.Flags &&& FlagUp ≠ 0) ∧
      (∀ name, (∀ iface ∈ ifaces, iface.Name ≠ name) →
        ∀ e ∈ evs, e.kind = .counter → e.tags ≠ [("interface", name)]) := by
    intro f evs hev
    have h1 : ∀ e ∈ evs, e.kind = .counter → ∀ name, e.tags = [("interface", name)] →
        (∃ io ∈ netio, io.Name = name) ∧
        ∃ iface, mapGet name (interfacesByName ifaces) = some iface ∧
          iface.Flags &&& FlagLoopback ≠ FlagLoopback ∧ iface.Flags &&& FlagUp ≠ 0 := by
      intro e he hk name ht
      obtain ⟨io, hio', hsk, ht'⟩ := hev e he hk
      have hname : io.Name = name := by
        rw [ht'] at ht
        simpa using ht
      rw [← hname]
      exact ⟨⟨io, hio', rfl⟩, (skips_eq_false_default s f _ io hall hchk).1 hsk⟩
    refine ⟨h1, ?_⟩
    intro name habs e he hk ht
    obtain ⟨-, iface, hget, -, -⟩ := h1 e he hk name ht
    rw [(interfacesByName_none_iff ifaces name).2 habs] at hget
    simp at hget
  cases hf : resolveFilter env s with
  | error err =>
    refine ⟨[], ?_, by simp, by simp, ?_⟩
    · simp [NetIOStats.Gather, hio, hf]
    · intro hout
      simp [NetIOStats.Gather, hio, hf] at hout
  | ok f =>
    obtain ⟨hA, hB⟩ := Gather_of_loop env s w netio f ifaces hio hf hifs
    obtain ⟨evs, hacc, hev, hemit⟩ := gatherLoop_events s f (interfacesByName ifaces) netio w
    by_cases hb : (gatherLoop s f (interfacesByName ifaces) w netio).2 = true
    · obtain ⟨ho, ha⟩ := hA hb
      obtain ⟨g1, g2⟩ := hvis f evs (fun e he _ => (hev e he).2.2)
      refine ⟨evs, by rw [ha, hacc], g1, g2, ?_⟩
      intro hout
      rw [ho] at hout
      simp at hout
    · have hb' : (gatherLoop s f (interfacesByName ifaces) w netio).2 = false := by
        simpa using hb
      obtain ⟨-, ha⟩ := hB hb'
      have hall' : ∀ e ∈ evs ++ (if s.IgnoreProtocolStats = true then [] else [protoMetric env s]),
          e.kind = .counter → ∃ io ∈ netio,
            skips s f (interfacesByName ifaces) io = false ∧
              e.tags = [("interface", io.Name)] := by
        intro e he hk
        rcases List.mem_append.mp he with he | he
        · exact (hev e he).2.2
        · rw [mem_protoTail env s e he] at hk
          simp [protoMetric] at hk
      obtain ⟨g1, g2⟩ := hvis f _ hall'
      refine ⟨evs ++ (if s.IgnoreProtocolStats = true then [] else [protoMetric env s]),
        by rw [ha, hacc, List.append_assoc], g1, g2, ?_⟩
      intro _ io hio' iface hget h1 h2
      obtain ⟨e, he, hk, ht⟩ := hemit hb' io hio'
        ((skips_eq_false_default s f _ io hall hchk).2 ⟨iface, hget, h1, h2⟩)
      exact ⟨e, List.mem_append_left _ he, hk, ht⟩

/-- C5, amended, on a cycle reading the up interface, the loopback and the down interface:
only the up interface is emitted. -/
theorem Gather_default_visibility_witness :
    ∃ evs, ((demoStats [demoIO1, demoLo, demoEth1]).Gather demoEnv demoWorld0).world.acc =
        demoWorld0.acc ++ evs ∧
      (∀ e ∈ evs, e.kind = .counter → e.tags ≠ [("interface", "lo")]) ∧
      (∀ e ∈ evs, e.kind = .counter → e.tags ≠ [("interface", "eth1")]) ∧
      (∃ e ∈ evs, e.kind = .counter ∧ e.tags = [("interface", "eth0")]) := by
  obtain ⟨evs, h1, h2, -, h4⟩ := Gather_default_visibility demoEnv
    (demoStats [demoIO1, demoLo, demoEth1]) demoWorld0 [demoIO1, demoLo, demoEth1]
    [⟨"eth0", 1⟩, ⟨"lo", 5⟩, ⟨"eth1", 0⟩] rfl rfl rfl rfl
  refine ⟨evs, h1, ?_, ?_, ?_⟩
  · intro e he hk ht
    obtain ⟨-, iface, hget, hlo, -⟩ := h2 e he hk "lo" ht
    have hi : iface = ⟨"lo", 5⟩ := by
      have : mapGet "lo" (interfacesByName [⟨"eth0", 1⟩, ⟨"lo", 5⟩, ⟨"eth1", 0⟩]) =
          some ⟨"lo", 5⟩ := by decide
      rw [this] at hget
      exact (Option.some.inj hget).symm
    subst hi
    exact hlo (by decide)
  · intro e he hk ht
    obtain ⟨-, iface, hget, -, hup⟩ := h2 e he hk "eth1" ht
    have hi : iface = ⟨"eth1", 0⟩ := by
      have : mapGet "eth1" (interfacesByName [⟨"eth0", 1⟩, ⟨"lo", 5⟩, ⟨"eth1", 0⟩]) =
          some ⟨"eth1", 0⟩ := by decide
      rw [this] at hget
      exact (Option.some.inj hget).symm
    subst hi
    exact hup (by decide)
  · exact h4 (by decide) demoIO1 (by simp) ⟨"eth0", 1⟩ (by decide) (by decide) (by decide)

/-- C6 as stated fails: with the allow-list `["eth1"]` the filter matches `eth1`, yet in a
second cycle half a second after the first `Gather` panics on the rate division and hands over
nothing for `eth1`. -/
theorem Gather_allow_list_match_not_emitted_on_panic :
    (demoStatsAllow [demoEth1]).Interfaces = ["eth1"] ∧
    demoFilterAllow demoEth1.Name = true ∧
    ((demoStatsAllow [demoEth1]).Gather demoEnv demoWorldAllowFast1).outcome = .panicked ∧
    ((demoStatsAllow [demoEth1]).Gather demoEnv demoWorldAllowFast1).world.acc =
      demoWorldAllowFast1.acc := by
  decide

/-- C6, amended: in a cycle with a non-empty allow-list whose raw counters are fetched, with `f`
the filter in force: every counter metric handed over is tagged with the name of an entry of
the raw counter list that `f` matches; when `Gather` returns nil, every entry that `f` matches
has its counter metric; and the up, down and loopback flags and the presence in the system
interfaces have no influence: any two lists of system interfaces give the same result of
`Gather`. -/
theorem Gather_allow_list_visibility (env : Env) (s : NetIOStats) (w : World)
    (netio : List IOCountersStat) (f : String → Bool)
    (hio : PS.NetIO s.ps = .ok netio) (hf : resolveFilter env s = .ok f)
    (hne : s.Interfaces ≠ []) :
    (∃ evs, (s.Gather env w).world.acc = w.acc ++ evs ∧
      (∀ e ∈ evs, e.kind = .counter →
        ∃ io ∈ netio, f io.Name = true ∧ e.tags = [("interface", io.Name)]) ∧
      ((s.Gather env w).outcome = .returned none → ∀ io ∈ netio, f io.Name = true →
        ∃ e ∈ evs, e.kind = .counter ∧ e.tags = [("interface", io.Name)])) ∧
    (∀ ifaces1 ifaces2 : List Interface,
      s.Gather { env with Interfaces := .ok ifaces1 } w =
        s.Gather { env with Interfaces := .ok ifaces2 } w) := by
  constructor
  · cases hifs : env.Interfaces with
    | error err =>
      refine ⟨[], ?_, by simp, ?_⟩
      · simp [NetIOStats.Gather, hio, hf, hifs]
      · intro hout
        simp [NetIOStats.Gather, hio, hf, hifs] at hout
    | ok ifaces =>
      obtain ⟨hA, hB⟩ := Gather_of_loop env s w netio f ifaces hio hf hifs
      obtain ⟨evs, hacc, hev, hemit⟩ := gatherLoop_events s f (interfacesByName ifaces) netio w
      have hev' : ∀ e ∈ evs, e.kind = .counter →
          ∃ io ∈ netio, f io.Name = true ∧ e.tags = [("interface", io.Name)] := by
        intro e he _
        obtain ⟨-, -, io, hio', hsk, ht⟩ := hev e he
        exact ⟨io, hio', (skips_eq_false_allow_list s f _ io hne).1 hsk, ht⟩
      by_cases hb : (gatherLoop s f (interfacesByName ifaces) w netio).2 = true
      · obtain ⟨ho, ha⟩ := hA hb
        refine ⟨evs, by rw [ha, hacc], hev', ?_⟩
        intro hout
        rw [ho] at hout
        simp at hout
      · have hb' : (gatherLoop s f (interfacesByName ifaces) w netio).2 = false := by
          simpa using hb
        obtain ⟨-, ha⟩ := hB hb'
        refine ⟨evs ++ (if s.IgnoreProtocolStats = true then [] else [protoMetric env s]),
          by rw [ha, hacc, List.append_assoc], ?_, ?_⟩
        · intro e he hk
          rcases List.mem_append.mp he with he | he
          · exact hev' e he hk
          · rw [mem_protoTail env s e he] at hk
            simp [protoMetric] at hk
        · intro _ io hio' hm
          obtain ⟨e, he, hk, ht⟩ := hemit hb' io hio'
            ((skips_eq_false_allow_list s f _ io hne).2 hm)
          exact ⟨e, List.mem_append_left _ he, hk, ht⟩
  · intro ifaces1 ifaces2
    have hf1 : resolveFilter { env with Interfaces := .ok ifaces1 } s = .ok f := by
      rw [← hf]
      rfl
    have hf2 : resolveFilter { env with Interfaces := .ok ifaces2 } s = .ok f := by
      rw [← hf]
      rfl
    unfold NetIOStats.Gather
    simp only [hio, hf1, hf2]
    rw [gatherLoop_allow_list s f (interfacesByName ifaces1) (interfacesByName ifaces2) hne]

/-- C6, amended, on a cycle with the allow-list `["eth1"]`: the down interface `eth1` is
emitted, the up interface `eth0` is not. -/
theorem Gather_allow_list_visibility_witness :
    ∃ evs, ((demoStatsAllow [demoIO1, demoEth1]).Gather demoEnv demoWorld0).world.acc =
        demoWorld0.acc ++ evs ∧
      (∀ e ∈ evs, e.kind = .counter → e.tags ≠ [("interface", "eth0")]) ∧
      (∃ e ∈ evs, e.kind = .counter ∧ e.tags = [("interface", "eth1")]) := by
  obtain ⟨⟨evs, h1, h2, h3⟩, -⟩ := Gather_allow_list_visibility demoEnv
    (demoStatsAllow [demoIO1, demoEth1]) demoWorld0 [demoIO1, demoEth1] demoFilterAllow
    rfl rfl (by decide)
  refine ⟨evs, h1, ?_, ?_⟩
  · intro e he hk ht
    obtain ⟨io, -, hm, ht'⟩ := h2 e he hk
    rw [ht] at ht'
    have hname : io.Name = "eth0" := by
      have := (List.cons.inj ht').1
      exact (Prod.mk.inj this).2.symm
    rw [hname] at hm
    exact absurd hm (by decide)
  · exact h3 (by decide) demoEth1 (by simp) (by decide)

/-! ## Claims on the protocol statistics -/

/-- C7: in a cycle that returns nil with protocol statistics not disabled, the metrics handed
over are counter metrics followed by exactly one `AddFields` metric, named "net" and tagged
interface=all. Its field mapping has the key lower(P) + "_" + lower(S) for every statistic S of
every returned group P, has no other key, and binds that key to the value V of S whenever every
returned statistic with the same key carries V (so whenever no two lowercase to one key). -/
theorem Gather_flattens_protocol_stats (env : Env) (s : NetIOStats) (w : World)
    (hout : (s.Gather env w).outcome = .returned none)
    (hproto : s.IgnoreProtocolStats = false) :
    ∃ evs flds, (s.Gather env w).world.acc =
        w.acc ++ evs ++ [⟨.fields, "net", flds, [("interface", "all")]⟩] ∧
      (∀ e ∈ evs, e.kind = .counter) ∧
      (∀ proto ∈ s.ps.NetProto.1, ∀ sv ∈ proto.Stats,
        env.ToLower proto.Protocol ++ "_" ++ env.ToLower sv.1 ∈ mapKeys flds) ∧
      (∀ x ∈ mapKeys flds, ∃ proto ∈ s.ps.NetProto.1, ∃ sv ∈ proto.Stats,
        x = env.ToLower proto.Protocol ++ "_" ++ env.ToLower sv.1) ∧
      (∀ proto ∈ s.ps.NetProto.1, ∀ sv ∈ proto.Stats,
        (∀ proto2 ∈ s.ps.NetProto.1, ∀ sv2 ∈ proto2.Stats,
          env.ToLower proto2.Protocol ++ "_" ++ env.ToLower sv2.1 =
            env.ToLower proto.Protocol ++ "_" ++ env.ToLower sv.1 → sv2.2 = sv.2) →
        mapGet (env.ToLower proto.Protocol ++ "_" ++ env.ToLower sv.1) flds =
          some (.int sv.2)) := by
  rcases Gather_cases env s w with ⟨⟨msg, hmsg⟩, -, -⟩ | ⟨netio, f, ifaces, hio, hf, hifs⟩
  · rw [hmsg] at hout
    simp at hout
  · obtain ⟨hA, hB⟩ := Gather_of_loop env s w netio f ifaces hio hf hifs
    obtain ⟨evs, hacc, hev, -⟩ := gatherLoop_events s f (interfacesByName ifaces) netio w
    have hb : (gatherLoop s f (interfacesByName ifaces) w netio).2 = false := by
      cases hb : (gatherLoop s f (interfacesByName ifaces) w netio).2 with
      | false => rfl
      | true =>
        rw [(hA hb).1] at hout
        simp at hout
    obtain ⟨-, ha⟩ := hB hb
    refine ⟨evs, protoFields env.ToLower s.ps.NetProto.1, ?_, fun e he => (hev e he).1, ?_, ?_, ?_⟩
    · rw [ha, hacc, hproto]
      rfl
    · intro proto hp sv hsv
      exact (mem_mapKeys_protoFields env.ToLower _ _).2 ⟨proto, hp, sv, hsv, rfl⟩
    · intro x hx
      obtain ⟨proto, hp, sv, hsv, hk⟩ := (mem_mapKeys_protoFields env.ToLower _ _).1 hx
      exact ⟨proto, hp, sv, hsv, hk.symm⟩
    · intro proto hp sv hsv hsame
      exact mapGet_protoFields env.ToLower _ sv.2 s.ps.NetProto.1
        (fun proto2 hp2 sv2 hsv2 hk => hsame proto2 hp2 sv2 hsv2 hk)
        ⟨proto, hp, sv, hsv, rfl⟩

/-- C7 on the group of the spec: "Tcp" with "ActiveOpens" = 7 gives tcp_activeopens = 7 under
interface=all. -/
theorem Gather_flattens_protocol_stats_witness :
    ∃ evs flds, ((demoStats [demoIO1]).Gather demoEnv demoWorld0).world.acc =
        demoWorld0.acc ++ evs ++ [⟨.fields, "net", flds, [("interface", "all")]⟩] ∧
      mapKeys flds = ["tcp_activeopens"] ∧
      mapGet "tcp_activeopens" flds = some (.int 7) := by
  obtain ⟨evs, flds, h1, -, h3, h4, h5⟩ := Gather_flattens_protocol_stats demoEnv
    (demoStats [demoIO1]) demoWorld0 (by decide) rfl
  have hacc : ((demoStats [demoIO1]).Gather demoEnv demoWorld0).world.acc =
      [⟨.counter, "net", [], [("interface", "eth0")]⟩] ++
        [⟨.fields, "net", [("tcp_activeopens", .int 7)], [("interface", "all")]⟩] := by
    decide
  have hflds : flds = [("tcp_activeopens", .int 7)] := by
    rw [hacc] at h1
    have h6 := congrArg List.getLast? h1
    simp [demoWorld0] at h6
    exact h6.symm
  refine ⟨evs, flds, h1, ?_, ?_⟩
  · rw [hflds]
    rfl
  · exact h5 ⟨"Tcp", [("ActiveOpens", 7)]⟩ (by simp [demoStats]) ("ActiveOpens", 7) (by simp)
      (by
        intro proto2 hp2 sv2 hsv2 _
        simp only [demoStats, List.mem_singleton] at hp2
        subst hp2
        simp only [List.mem_singleton] at hsv2
        subst hsv2
        rfl)

/-- C8 as stated fails: the retrieval of the protocol statistics fails, `Gather` returns nil,
and a metric tagged interface=all (with an empty field mapping) is handed to the sink. -/
theorem Gather_hands_over_all_metric_when_proto_fails :
    (demoStatsProtoFails [demoIO1]).ps.NetProto.2 = some "not implemented" ∧
    (demoStatsProtoFails [demoIO1]).IgnoreProtocolStats = false ∧
    ((demoStatsProtoFails [demoIO1]).Gather demoEnv demoWorld0).outcome = .returned none ∧
    ((demoStatsProtoFails [demoIO1]).Gather demoEnv demoWorld0).world.acc =
      [⟨.counter, "net", [], [("interface", "eth0")]⟩,
       ⟨.fields, "net", [], [("interface", "all")]⟩] := by
  decide

/-- C8, amended: in a cycle that has the protocol statistics enabled and in which their
retrieval fails, the failure is swallowed: an error `Gather` returns comes from one of its three
other fetches, never from this one. The call of `AddFields` is still made: when `Gather`
returns nil, the metrics handed over are counter metrics followed by one `AddFields` metric
named "net" and tagged interface=all, whose field mapping is empty when no group came back with
the failure. -/
theorem Gather_swallows_proto_failure (env : Env) (s : NetIOStats) (w : World)
    (groups : List ProtoCountersStat) (err : String)
    (hproto : s.IgnoreProtocolStats = false)
    (hfail : s.ps.NetProto = (groups, some err)) :
    (∀ msg, (s.Gather env w).outcome = .returned (some msg) →
      (∃ e, PS.NetIO s.ps = .error e) ∨ (∃ e, resolveFilter env s = .error e) ∨
        (∃ e, env.Interfaces = .error e)) ∧
    ((s.Gather env w).outcome = .returned none →
      ∃ evs flds, (s.Gather env w).world.acc =
          w.acc ++ evs ++ [⟨.fields, "net", flds, [("interface", "all")]⟩] ∧
        (∀ e ∈ evs, e.kind = .counter) ∧
        (groups = [] → flds = [])) := by
  constructor
  · intro msg hmsg
    rcases Gather_cases env s w with ⟨-, -, h⟩ | ⟨netio, f, ifaces, hio, hf, hifs⟩
    · exact h
    · obtain ⟨hA, hB⟩ := Gather_of_loop env s w netio f ifaces hio hf hifs
      cases hb : (gatherLoop s f (interfacesByName ifaces) w netio).2 with
      | false =>
        rw [(hB hb).1] at hmsg
        simp at hmsg
      | true =>
        rw [(hA hb).1] at hmsg
        simp at hmsg
  · intro hout
    rcases Gather_cases env s w with ⟨⟨msg, hmsg⟩, -, -⟩ | ⟨netio, f, ifaces, hio, hf, hifs⟩
    · rw [hmsg] at hout
      simp at hout
    · obtain ⟨hA, hB⟩ := Gather_of_loop env s w netio f ifaces hio hf hifs
      obtain ⟨evs, hacc, hev, -⟩ := gatherLoop_events s f (interfacesByName ifaces) netio w
      have hb : (gatherLoop s f (interfacesByName ifaces) w netio).2 = false := by
        cases hb : (gatherLoop s f (interfacesByName ifaces) w netio).2 with
        | false => rfl
        | true =>
          rw [(hA hb).1] at hout
          simp at hout
      obtain ⟨-, ha⟩ := hB hb
      refine ⟨evs, protoFields env.ToLower s.ps.NetProto.1, ?_, fun e he => (hev e he).1, ?_⟩
      · rw [ha, hacc, hproto]
        rfl
      · intro hnil
        rw [hfail, hnil]
        rfl

/-- C8, amended, on a cycle whose retrieval fails with nothing returned: `Gather` returns nil
and the last metric is tagged interface=all with no field. -/
theorem Gather_swallows_proto_failure_witness :
    ((demoStatsProtoFails [demoIO1]).Gather demoEnv demoWorld0).outcome = .returned none ∧
    ∃ evs, ((demoStatsProtoFails [demoIO1]).Gather demoEnv demoWorld0).world.acc =
      demoWorld0.acc ++ evs ++ [⟨.fields, "net", [], [("interface", "all")]⟩] := by
  have h := Gather_swallows_proto_failure demoEnv (demoStatsProtoFails [demoIO1]) demoWorld0
    [] "not implemented" rfl rfl
  obtain ⟨evs, flds, h1, -, h3⟩ := h.2 (by decide)
  rw [h3 rfl] at h1
  exact ⟨by decide, evs, h1⟩

end EasedbaNet
